import Mathlib

/-!
Verification of the core of the `risk_query_service` repository: file
discovery and fingerprinting (`file_index.py`), dataset normalization and
filtering (`datasets.py`), cursor encoding (`utils/paginate.py`) and the
query endpoint's pagination protocol (`routers/actions.py`).

Each Python function is embedded as an executable Lean definition; machine
integers are modelled as `Nat`/`Int`, fallible code returns `Option` or
`Except`.
-/

namespace RiskQuery

/-! ## Generic string helpers (models of Python primitives) -/

/-- Decides whether `needle` occurs at the start of `hay`. -/
def seqStartsWith : List Char → List Char → Bool
  | [], _ => true
  | _ :: _, [] => false
  | n :: ns, h :: hs => (n == h) && seqStartsWith ns hs

/-- Decides whether `needle` occurs as a contiguous run anywhere in `hay`;
models the Python substring test `needle in hay`. -/
def seqContainsRun (needle : List Char) : List Char → Bool
  | [] => needle.isEmpty
  | c :: rest => seqStartsWith needle (c :: rest) || seqContainsRun needle rest

/-- String form of `seqContainsRun`: Python `needle in hay` on `str`. -/
def strContains (hay needle : String) : Bool :=
  seqContainsRun needle.data hay.data

/-- ASCII lower-casing of one character.  Python `str.lower()` and
polars `str.to_lowercase` implement full Unicode case mapping; every
input exercised in this development is ASCII, where the two coincide
with this map. -/
def lowerChar (c : Char) : Char :=
  if 65 ≤ c.toNat ∧ c.toNat ≤ 90 then Char.ofNat (c.toNat + 32) else c

/-- ASCII lower-casing of a string (see `lowerChar`). -/
def strLower (s : String) : String :=
  String.mk (s.data.map lowerChar)

/-- ASCII digit test on a character. -/
def isDigitCh (c : Char) : Bool :=
  48 ≤ c.toNat && c.toNat ≤ 57

/-- Character for a single decimal digit (only used with `n < 10`). -/
def digitCh (n : Nat) : Char :=
  Char.ofNat (48 + n)

/-- Fuelled decimal rendering: the fuel only bounds the digit count and
is consumed once per digit, keeping the recursion structural. -/
def natDecimalAux : Nat → Nat → List Char
  | 0, _ => []
  | fuel + 1, n =>
    if n < 10 then [digitCh n]
    else natDecimalAux fuel (n / 10) ++ [digitCh (n % 10)]

/-- Decimal rendering of a natural number, most significant digit first;
models Python `str` on a non-negative `int` (as used by f-strings,
`repr` and `json.dumps`).  A number has at most `n + 1` digits, so the
fuel never runs out. -/
def natDecimal (n : Nat) : List Char :=
  natDecimalAux (n + 1) n

/-- Decimal rendering of an integer; models Python `str` on `int`. -/
def intDecimal (i : Int) : List Char :=
  if i < 0 then '-' :: natDecimal i.natAbs else natDecimal i.natAbs

/-! ## Report categories and labels (`file_index.py`, `datasets.py`) -/

/-- Report categories, mirroring `ReportType = Literal["actions",
"crit_actions", "perms", "crit_perms"]` in `file_index.py`. -/
inductive Category
  | actions
  | crit_actions
  | perms
  | crit_perms
deriving DecidableEq

/-- String form of a category, as the `Literal` value appears in Python. -/
def catName : Category → String
  | .actions => "actions"
  | .crit_actions => "crit_actions"
  | .perms => "perms"
  | .crit_perms => "crit_perms"

/-- Model of `datasets._report_type_label`: the derived client-facing
report-type label from the category and the critical flag.  The final
fallback branch returns the raw category name, as the Python function
returns `report_type` itself when no membership test fires. -/
def report_type_label (rt : Category) (is_critical : Bool) : String :=
  if rt = .actions ∨ rt = .crit_actions then
    if is_critical then "Critical Action" else "Action"
  else if rt = .perms ∨ rt = .crit_perms then
    if is_critical then "Critical Permission" else "Permission"
  else catName rt

/-- Model of `pathlib.PurePath.stem` for a plain file name: the name
without its last suffix, where a suffix requires a dot that is neither
the first nor the last character. -/
def stemOf (name : String) : String :=
  let cs := name.data
  match (cs.reverse.findIdx? (· = '.')).map (fun j => cs.length - 1 - j) with
  | some i => if 0 < i ∧ i < cs.length - 1 then String.mk (cs.take i) else name
  | none => name

/-! ## Tabular model and normalization (`datasets._normalize_lazyframe`)

A frame is modelled as a column list plus one total valuation per row:
each row maps a column name to a cell.  Polars `with_columns` with a
literal sets the column on every row, appending the name when new. -/

/-- Cell values appearing in the normalized frames. -/
inductive Cell
  | str (s : String)
  | bool (b : Bool)
  | null
deriving DecidableEq

/-- Canonical column list from `utils/schema.py` (`CANONICAL_COLUMNS`). -/
def CANONICAL_COLUMNS : List String :=
  ["User ID", "User Name", "User Group", "Access Risk ID",
   "Risk Description", "Role ID", "Risk Level", "Function",
   "Function Description", "System", "Action", "Action Description",
   "Last Executed On", "Business Process",
   "Composite/Business Role Description", "ReportType", "IsCritical"]

/-- Frame model: header columns plus per-row valuations. -/
structure Frame where
  cols : List String
  rows : List (String → Cell)

/-- Model of `lf.with_columns(pl.lit(v).alias(name))`: every row gets the
literal in column `name`; the column is appended to the header when new. -/
def withColumnLit (f : Frame) (name : String) (v : Cell) : Frame :=
  { cols := if name ∈ f.cols then f.cols else f.cols ++ [name],
    rows := f.rows.map (fun r => fun c => if c = name then v else r c) }

/-- Cast of one cell to Boolean.  Boolean cells and nulls are preserved;
the result on other dtypes is immaterial here because the column is
unconditionally overwritten right after the cast in
`_normalize_lazyframe`, so no theorem below depends on that branch. -/
def castBoolCell : Cell → Cell
  | .bool b => .bool b
  | .null => .null
  | .str _ => .null

/-- Model of `lf.with_columns(pl.col(name).cast(pl.Boolean))`. -/
def castBoolColumn (f : Frame) (name : String) : Frame :=
  { cols := f.cols,
    rows := f.rows.map (fun r => fun c => if c = name then castBoolCell (r c) else r c) }

/-- Model of `lf.select(cols)`: the projection fixes the header; row
valuations are kept total, reads outside `cols` are never performed. -/
def selectColumns (f : Frame) (cols : List String) : Frame :=
  { cols := cols, rows := f.rows }

/-- Model of `datasets._normalize_lazyframe`.  `fileName` is the base name
of the backing file (`file_path.name`); the code consults its stem.
Missing canonical columns are added as typed nulls (`IsCritical` as
`false`), an existing `IsCritical` column is cast to Boolean, then
`IsCritical` and `ReportType` are unconditionally overwritten from the
file name and category, and the canonical projection is applied. -/
def normalize_lazyframe (f : Frame) (rt : Category) (fileName : String) : Frame :=
  let columns := f.cols
  let missing := CANONICAL_COLUMNS.filter (fun n => ¬ n ∈ columns)
  let f1 := missing.foldl
    (fun acc n =>
      if n = "IsCritical" then withColumnLit acc n (.bool false)
      else withColumnLit acc n .null) f
  let f2 := if "IsCritical" ∈ columns then castBoolColumn f1 "IsCritical" else f1
  let is_critical := strContains (strLower (stemOf fileName)) "crit"
  let f3 := withColumnLit f2 "IsCritical" (.bool is_critical)
  let f4 := withColumnLit f3 "ReportType" (.str (report_type_label rt is_critical))
  selectColumns f4 CANONICAL_COLUMNS

/-! ## Free-text user filter (`datasets.apply_filters`, `user` branch) -/

/-- Row fragment carrying the two user-identifying columns consulted by
the free-text user filter (`FILTERABLE_COLUMNS["user"] = ["User ID",
"User Name"]`). -/
structure UserRow where
  userId : String
  userName : String

/-- Matcher for the fragment of regular-expression patterns consisting of
literal characters plus the `.` wildcard, anchored at the start of the
haystack.  `pl.Expr.str.contains` compiles its argument as a regular
expression (`literal=False` is the default); on this fragment the engine
semantics is exactly: each pattern character stands for itself and `.`
accepts any character. -/
def dotMatchHere : List Char → List Char → Bool
  | [], _ => true
  | _ :: _, [] => false
  | p :: ps, c :: cs => (p == '.' || p == c) && dotMatchHere ps cs

/-- Unanchored search for `dotMatchHere`, the `contains`/`is_match`
behaviour of the regex engine on the literal-plus-dot fragment. -/
def dotSearch (pat : List Char) : List Char → Bool
  | [] => pat.isEmpty
  | c :: rest => dotMatchHere pat (c :: rest) || dotSearch pat rest

/-- Model of the `user` branch of `datasets.apply_filters`: the term is
lowercased (`user.lower()`), each user column is lowercased, and
`str.contains` — regex semantics — is applied, OR-ed across the two
columns (`pl.any_horizontal`). -/
def userFilterKeeps (term : String) (row : UserRow) : Bool :=
  dotSearch (strLower term).data (strLower row.userId).data ||
    dotSearch (strLower term).data (strLower row.userName).data

/-- Comparison definition following the spec's words for the same filter:
"case-insensitive substring match, true if the term appears in ANY of a
fixed set of user-identifying columns". -/
def userFilterKeepsSpec (term : String) (row : UserRow) : Bool :=
  strContains (strLower row.userId) (strLower term) ||
    strContains (strLower row.userName) (strLower term)

/-! ## File discovery (`file_index.py`) -/

/-- Literal file-name template start for each category
(`FILE_PATTERNS`). -/
def catFilePrefixStr : Category → String
  | .actions => "RS_Action_Lvl_"
  | .crit_actions => "RS_CritAction_Lvl_"
  | .perms => "RS_Perm_Lvl_"
  | .crit_perms => "RS_CritPerm_Lvl_"

/-- Strips an exact literal from the front of a character list. -/
def stripSeq : List Char → List Char → Option (List Char)
  | [], rest => some rest
  | _ :: _, [] => none
  | p :: ps, c :: cs => if p = c then stripSeq ps cs else none

/-- Model of matching one file name against a category's pattern
`^PREFIX_(\d{8})_(\d{6})\.txt$` from `FILE_PATTERNS`, returning the two
captured digit groups.  Digits are taken as ASCII digits. -/
def patternGroups (cat : Category) (name : String) : Option (String × String) :=
  match stripSeq (catFilePrefixStr cat).data name.data with
  | none => none
  | some r1 =>
    let d8 := r1.take 8
    let r2 := r1.drop 8
    if d8.length = 8 ∧ d8.all isDigitCh then
      match r2 with
      | '_' :: r3 =>
        let d6 := r3.take 6
        let r4 := r3.drop 6
        if d6.length = 6 ∧ d6.all isDigitCh ∧ r4 = ['.', 't', 'x', 't'] then
          some (String.mk d8, String.mk d6)
        else none
      | _ => none
    else none

/-- Model of the candidate ordering in `_discover_files`:
`sort(key=lambda item: item[1], reverse=True)` — a stable sort,
descending on the parsed production timestamp.  `List.mergeSort` with
this comparison is stable and therefore produces the same list as
Python's Timsort under the same key. -/
def sortCandidates {P T : Type} [LinearOrder T] (cands : List (P × T)) : List (P × T) :=
  cands.mergeSort (fun a b => decide (b.2 ≤ a.2))

/-- Model of the selection step of `_discover_files`: sort descending by
timestamp and take the first candidate, if any. -/
def selectLatest {P T : Type} [LinearOrder T] (cands : List (P × T)) : Option (P × T) :=
  match sortCandidates cands with
  | [] => none
  | m :: _ => some m

/-- Configuration fragment feeding discovery.  `settingsLocalPath` is
`Settings.onedrive_local_path` (already validated and normalized by
`config.py`); `envLocalPath` is the raw `ONEDRIVE_LOCAL_PATH`
environment value consulted as a fallback inside
`_discover_local_files`. -/
structure DiscoveryConfig where
  settingsLocalPath : Option String
  envLocalPath : Option String

/-- External state visible to discovery: the local directory listings
(regular files only — non-files are skipped by the `is_file` guard) and
the remote file-name listing served by the Graph client. -/
structure FsState where
  localDir : String → List String
  remoteNames : List String

/-- Folder resolution at the top of `_discover_local_files`: the settings
value wins; otherwise a non-empty raw environment value is used. -/
def localFolder (cfg : DiscoveryConfig) : Option String :=
  match cfg.settingsLocalPath with
  | some p => some p
  | none =>
    match cfg.envLocalPath with
    | some raw => if raw.isEmpty then none else some raw
    | none => none

/-- Model of `_discover_local_files`: enumerate the configured folder and
keep pattern hits with their parsed timestamps.  `mk` stands for
`time.mktime ∘ time.strptime` on the two captured digit groups; its
calendar arithmetic is kept abstract. -/
def discover_local_files {T : Type} (mk : String → String → T)
    (cfg : DiscoveryConfig) (fs : FsState) (cat : Category) : List (String × T) :=
  match localFolder cfg with
  | none => []
  | some d =>
    (fs.localDir d).filterMap
      (fun n => (patternGroups cat n).map (fun g => (n, mk g.1 g.2)))

/-- Model of `_discover_remote_files`: returns `[]` immediately when
`settings.onedrive_local_path` is set (lines 90–92), before any remote
listing is consulted; otherwise filters the remote listing by the
pattern and resolves each candidate (the resolved local cache path is
keyed here by the remote name). -/
def discover_remote_files {T : Type} (mk : String → String → T)
    (cfg : DiscoveryConfig) (fs : FsState) (cat : Category) : List (String × T) :=
  if cfg.settingsLocalPath.isSome then []
  else
    fs.remoteNames.filterMap
      (fun n => (patternGroups cat n).map (fun g => (n, mk g.1 g.2)))

/-- Model of `_discover_files`: local candidates first, remote only when
the local list is empty, then select the maximum-timestamp candidate. -/
def discover_files {T : Type} [LinearOrder T] (mk : String → String → T)
    (cfg : DiscoveryConfig) (fs : FsState) (cat : Category) : Option (String × T) :=
  let cands := discover_local_files mk cfg fs cat
  let cands := if cands.isEmpty then discover_remote_files mk cfg fs cat else cands
  selectLatest cands

/-! ## File-index cache (`get_latest_file_with_hash`) -/

/-- Resolved file record, mirroring `FileRecord` (the parsed timestamp is
irrelevant to the cache-level theorems and omitted). -/
structure FileRecordM where
  category : Category
  path : String
  file_hash : String
deriving DecidableEq

/-- Error taxonomy member raised when no candidate file exists for a
category.  The code raises `FileNotFoundError(f"No files found for
report type {report_type}")`; the category is carried structurally
here. -/
inductive ServiceError
  | noFileFound (category : Category)
deriving DecidableEq

/-- Model of `get_latest_file_with_hash`: consult the per-category cache
(a miss — absent or TTL-expired — is `none`); on a miss run discovery;
a discovery failure raises without touching the cache, a success stores
the record.  The updated cache is returned alongside the outcome. -/
def get_latest_file_with_hash
    (cache : Category → Option FileRecordM)
    (discover : Category → Option FileRecordM)
    (cat : Category) :
    Except ServiceError FileRecordM × (Category → Option FileRecordM) :=
  match cache cat with
  | some r => (.ok r, cache)
  | none =>
    match discover cat with
    | none => (.error (.noFileFound cat), cache)
    | some r => (.ok r, fun c => if c = cat then some r else cache c)

/-! ## Fingerprint (`file_index._compute_file_hash`) -/

/-- Truncation of a rational toward zero; models Python `int()` applied
to the float `st_mtime` (seconds, possibly fractional). -/
def intTrunc (q : ℚ) : Int :=
  q.num.tdiv (q.den : Int)

/-- Model of `_compute_file_hash`: the identity fingerprint
`f"{path.name}:{stat.st_size}:{int(stat.st_mtime)}"`.  `size` is the
non-negative `st_size`; `mtime` is the modification time in seconds,
modelled as a rational so that the `int()` truncation is visible. -/
def compute_file_hash (name : String) (size : Nat) (mtime : ℚ) : String :=
  name ++ ":" ++ String.mk (natDecimal size) ++ ":" ++
    String.mk (intDecimal (intTrunc mtime))

/-! ## Cursor codec (`utils/paginate.py`)

The pipeline of `encode_cursor` / `decode_cursor` is modelled in full:
`json.dumps` with `separators=(",", ":")` and the default
`ensure_ascii=True`, UTF-8 bytes, URL-safe base64.  The decoder models
`json.loads` on the payload grammar the encoder emits (flat objects with
string and integer members); inputs outside that grammar fail, exactly
as every failure inside Python's `decode_cursor` collapses to
`CursorError`. -/

/-- Cursor dataclass from `utils/paginate.py`. -/
structure Cursor where
  offset : Int
  file_hash : String
  report_type : String
deriving DecidableEq

/-- Error raised when a cursor token cannot be decoded
(`CursorError("Invalid cursor token")`). -/
inductive CursorError
  | invalid
deriving DecidableEq

/-- Lower-case hexadecimal digit, as emitted by Python's `\uXXXX`
escapes (only used with `n < 16`). -/
def hexDigitL (n : Nat) : Char :=
  if n < 10 then Char.ofNat (48 + n) else Char.ofNat (87 + n)

/-- Four lower-case hex digits of `n % 65536`, most significant first. -/
def hex4 (n : Nat) : List Char :=
  [hexDigitL (n / 4096 % 16), hexDigitL (n / 256 % 16),
   hexDigitL (n / 16 % 16), hexDigitL (n % 16)]

/-- Escape of one character under `json.dumps` with `ensure_ascii=True`:
quote and backslash get two-character escapes, the shorthand controls
`\b \t \n \f \r` likewise, all other characters outside `0x20..0x7e`
become `\uXXXX` (a surrogate pair beyond `0xffff`). -/
def escapeChar (c : Char) : List Char :=
  let n := c.toNat
  if c = '"' then ['\\', '"']
  else if c = '\\' then ['\\', '\\']
  else if n = 8 then ['\\', 'b']
  else if n = 9 then ['\\', 't']
  else if n = 10 then ['\\', 'n']
  else if n = 12 then ['\\', 'f']
  else if n = 13 then ['\\', 'r']
  else if n < 32 then '\\' :: 'u' :: hex4 n
  else if n < 127 then [c]
  else if n < 65536 then '\\' :: 'u' :: hex4 n
  else ('\\' :: 'u' :: hex4 (55296 + (n - 65536) / 1024)) ++
    ('\\' :: 'u' :: hex4 (56320 + (n - 65536) % 1024))

/-- Escape of a character list, character by character. -/
def escChars (l : List Char) : List Char :=
  l.flatMap escapeChar

/-- JSON string literal for `s`: quote, escaped body, quote. -/
def dumpJString (s : String) : List Char :=
  '"' :: escChars s.data ++ ['"']

/-- Model of `json.dumps(cursor.__dict__, separators=(",", ":"))`: the
dataclass dict preserves field declaration order (offset, file_hash,
report_type), and the compact separators leave no whitespace. -/
def jsonDumpCursor (c : Cursor) : List Char :=
  '\x7b' :: (dumpJString "offset" ++ ':' :: (intDecimal c.offset ++
    ',' :: (dumpJString "file_hash" ++ ':' :: (dumpJString c.file_hash ++
    ',' :: (dumpJString "report_type" ++ ':' :: (dumpJString c.report_type ++
    ['\x7d']))))))

/-- UTF-8 encoding of one character (1–4 bytes by scalar range). -/
def utf8EncodeChar (c : Char) : List Nat :=
  let n := c.toNat
  if n < 128 then [n]
  else if n < 2048 then [192 + n / 64, 128 + n % 64]
  else if n < 65536 then [224 + n / 4096, 128 + n / 64 % 64, 128 + n % 64]
  else [240 + n / 262144, 128 + n / 4096 % 64, 128 + n / 64 % 64, 128 + n % 64]

/-- Model of `str.encode("utf-8")`. -/
def utf8Encode (s : String) : List Nat :=
  s.data.flatMap utf8EncodeChar

/-- UTF-8 continuation-byte test. -/
def contByte (b : Nat) : Bool :=
  128 ≤ b && b < 192

/-- Fuelled body of the UTF-8 decoder; the fuel is consumed once per
decoded character and never runs out when it starts at the byte count,
since every character consumes at least one byte. -/
def utf8DecodeAux : Nat → List Nat → Option (List Char)
  | _, [] => some []
  | 0, _ :: _ => none
  | fuel + 1, b :: rest =>
    if b < 128 then (utf8DecodeAux fuel rest).map (fun cs => Char.ofNat b :: cs)
    else if b < 192 then none
    else if b < 224 then
      match rest with
      | b2 :: rest2 =>
        if contByte b2 then
          let n := (b - 192) * 64 + (b2 - 128)
          if n < 128 then none
          else (utf8DecodeAux fuel rest2).map (fun cs => Char.ofNat n :: cs)
        else none
      | [] => none
    else if b < 240 then
      match rest with
      | b2 :: b3 :: rest2 =>
        if contByte b2 && contByte b3 then
          let n := (b - 224) * 4096 + (b2 - 128) * 64 + (b3 - 128)
          if n < 2048 ∨ (55296 ≤ n ∧ n ≤ 57343) then none
          else (utf8DecodeAux fuel rest2).map (fun cs => Char.ofNat n :: cs)
        else none
      | _ => none
    else if b < 245 then
      match rest with
      | b2 :: b3 :: b4 :: rest2 =>
        if contByte b2 && contByte b3 && contByte b4 then
          let n := (b - 240) * 262144 + (b2 - 128) * 4096 +
            (b3 - 128) * 64 + (b4 - 128)
          if n < 65536 ∨ 1114111 < n then none
          else (utf8DecodeAux fuel rest2).map (fun cs => Char.ofNat n :: cs)
        else none
      | _ => none
    else none

/-- Model of `bytes.decode("utf-8")` (strict): multi-byte sequences are
validated, overlong encodings, surrogates and out-of-range scalars are
rejected. -/
def utf8Decode (bs : List Nat) : Option (List Char) :=
  utf8DecodeAux bs.length bs

/-- Byte value of the URL-safe base64 alphabet character for sextet `n`
(`A–Z a–z 0–9 - _`; only used with `n < 64`). -/
def sixChar (n : Nat) : Nat :=
  if n < 26 then 65 + n
  else if n < 52 then 97 + (n - 26)
  else if n < 62 then 48 + (n - 52)
  else if n = 62 then 45
  else 95

/-- Model of `base64.urlsafe_b64encode` over byte values: three input
bytes become four alphabet bytes, a short final group is `=`-padded
(byte 61). -/
def b64encodeBytes : List Nat → List Nat
  | [] => []
  | [b1] => [sixChar (b1 / 4), sixChar (b1 % 4 * 16), 61, 61]
  | [b1, b2] =>
    [sixChar (b1 / 4), sixChar (b1 % 4 * 16 + b2 / 16), sixChar (b2 % 16 * 4), 61]
  | b1 :: b2 :: b3 :: rest =>
    sixChar (b1 / 4) :: sixChar (b1 % 4 * 16 + b2 / 16) ::
      sixChar (b2 % 16 * 4 + b3 / 64) :: sixChar (b3 % 64) :: b64encodeBytes rest

/-- Sextet value of an alphabet byte, `none` outside the alphabet. -/
def sixVal (b : Nat) : Option Nat :=
  if 65 ≤ b ∧ b ≤ 90 then some (b - 65)
  else if 97 ≤ b ∧ b ≤ 122 then some (b - 71)
  else if 48 ≤ b ∧ b ≤ 57 then some (b + 4)
  else if b = 45 then some 62
  else if b = 95 then some 63
  else none

/-- Model of `base64.urlsafe_b64decode` on well-formed input: groups of
four alphabet bytes, the final group optionally `=`-padded.  Python
additionally discards non-alphabet bytes before decoding; that branch is
only reachable for malformed tokens and is rejected here instead — no
theorem below depends on it. -/
def b64decodeBytes : List Nat → Option (List Nat)
  | [] => some []
  | c1 :: c2 :: c3 :: c4 :: rest =>
    if rest.isEmpty then
      if c3 = 61 ∧ c4 = 61 then do
        let v1 ← sixVal c1
        let v2 ← sixVal c2
        pure [v1 * 4 + v2 / 16]
      else if c4 = 61 then do
        let v1 ← sixVal c1
        let v2 ← sixVal c2
        let v3 ← sixVal c3
        pure [v1 * 4 + v2 / 16, v2 % 16 * 16 + v3 / 4]
      else do
        let v1 ← sixVal c1
        let v2 ← sixVal c2
        let v3 ← sixVal c3
        let v4 ← sixVal c4
        pure [v1 * 4 + v2 / 16, v2 % 16 * 16 + v3 / 4, v3 % 4 * 64 + v4]
    else do
      let v1 ← sixVal c1
      let v2 ← sixVal c2
      let v3 ← sixVal c3
      let v4 ← sixVal c4
      let tl ← b64decodeBytes rest
      pure ((v1 * 4 + v2 / 16) :: (v2 % 16 * 16 + v3 / 4) :: (v3 % 4 * 64 + v4) :: tl)
  | _ => none

/-- JSON values of the payload grammar the cursor codec exchanges. -/
inductive JVal
  | jstr (s : String)
  | jint (n : Int)
  | jobj (members : List (String × JVal))

/-- JSON whitespace test. -/
def isWsCh (c : Char) : Bool :=
  c = ' ' || c = '\t' || c = '\n' || c = '\r'

/-- Skips JSON whitespace. -/
def skipWs (cs : List Char) : List Char :=
  cs.dropWhile isWsCh

/-- Value of one hexadecimal digit, either case. -/
def parseHexDigit (c : Char) : Option Nat :=
  if 48 ≤ c.toNat ∧ c.toNat ≤ 57 then some (c.toNat - 48)
  else if 97 ≤ c.toNat ∧ c.toNat ≤ 102 then some (c.toNat - 87)
  else if 65 ≤ c.toNat ∧ c.toNat ≤ 70 then some (c.toNat - 55)
  else none

/-- Value of four hexadecimal digits, most significant first. -/
def hex4val (a b c d : Char) : Option Nat := do
  let x ← parseHexDigit a
  let y ← parseHexDigit b
  let z ← parseHexDigit c
  let w ← parseHexDigit d
  pure (((x * 16 + y) * 16 + z) * 16 + w)

/-- Character named by a shorthand escape. -/
def escCharVal (e : Char) : Option Char :=
  if e = '"' then some '"'
  else if e = '\\' then some '\\'
  else if e = '/' then some '/'
  else if e = 'b' then some (Char.ofNat 8)
  else if e = 'f' then some (Char.ofNat 12)
  else if e = 'n' then some (Char.ofNat 10)
  else if e = 'r' then some (Char.ofNat 13)
  else if e = 't' then some (Char.ofNat 9)
  else none

/-- JSON string body parser (the opening quote already consumed):
returns the decoded characters and the input after the closing quote.
Surrogate pairs in `\uXXXX` escapes are recombined; a lone surrogate is
rejected (Python would produce a string this model's `Char` cannot
carry; the encoder never emits one). -/
def parseJStringAux : Nat → List Char → Option (List Char × List Char)
  | _, [] => none
  | 0, _ :: _ => none
  | fuel + 1, c :: rest =>
    if c = '"' then some ([], rest)
    else if c = '\\' then
      match rest with
      | [] => none
      | e :: rest2 =>
        if e = 'u' then
          match rest2 with
          | a :: b :: c2 :: d :: rest3 =>
            match hex4val a b c2 d with
            | none => none
            | some m =>
              if 55296 ≤ m ∧ m ≤ 56319 then
                match rest3 with
                | e2 :: u2 :: a2 :: b2 :: c3 :: d2 :: rest4 =>
                  if e2 = '\\' ∧ u2 = 'u' then
                    match hex4val a2 b2 c3 d2 with
                    | some m2 =>
                      if 56320 ≤ m2 ∧ m2 ≤ 57343 then
                        (parseJStringAux fuel rest4).map
                          (fun p =>
                            (Char.ofNat (65536 + (m - 55296) * 1024 + (m2 - 56320)) :: p.1,
                             p.2))
                      else none
                    | none => none
                  else none
                | _ => none
              else if 56320 ≤ m ∧ m ≤ 57343 then none
              else (parseJStringAux fuel rest3).map (fun p => (Char.ofNat m :: p.1, p.2))
          | _ => none
        else
          match escCharVal e with
          | some ec => (parseJStringAux fuel rest2).map (fun p => (ec :: p.1, p.2))
          | none => none
    else if c.toNat < 32 then none
    else (parseJStringAux fuel rest).map (fun p => (c :: p.1, p.2))

/-- JSON string body parser at full fuel: every decoded character
consumes at least one input character, so the input length bounds the
recursion depth. -/
def parseJString (cs : List Char) : Option (List Char × List Char) :=
  parseJStringAux cs.length cs

/-- Splits the maximal ASCII-digit run off the front of the input. -/
def takeDigits : List Char → List Char × List Char
  | [] => ([], [])
  | c :: cs =>
    if isDigitCh c then
      let p := takeDigits cs
      (c :: p.1, p.2)
    else ([], c :: cs)

/-- Value of a digit run, most significant first. -/
def digitsVal (l : List Char) : Nat :=
  l.foldl (fun a c => a * 10 + (c.toNat - 48)) 0

/-- Parses a non-empty decimal numeral off the front of the input. -/
def parseNatTok (cs : List Char) : Option (Nat × List Char) :=
  match takeDigits cs with
  | ([], _) => none
  | (ds, rest) => some (digitsVal ds, rest)

/-- Parses an optionally `-`-signed decimal numeral. -/
def parseIntTok : List Char → Option (Int × List Char)
  | [] => none
  | c :: rest =>
    if c = '-' then (parseNatTok rest).map (fun p => (-(p.1 : Int), p.2))
    else (parseNatTok (c :: rest)).map (fun p => ((p.1 : Int), p.2))

/-- Parses one JSON value of the payload grammar: a string literal or an
integer numeral.  Floats, literals (`true`/`false`/`null`) and nested
containers are outside the grammar the cursor encoder emits and fail
here, which the surrounding `decode_cursor` turns into the same
`CursorError` Python would eventually raise for such payloads. -/
def parseJValue (cs : List Char) : Option (JVal × List Char) :=
  match cs with
  | [] => none
  | c :: rest =>
    if c = '"' then (parseJString rest).map (fun p => (JVal.jstr (String.mk p.1), p.2))
    else (parseIntTok (c :: rest)).map (fun p => (JVal.jint p.1, p.2))

/-- Parses one or more comma-separated `"key":value` members followed by
the closing brace, fuelled by an upper bound on the member count. -/
def parseMembers : Nat → List Char → Option (List (String × JVal) × List Char)
  | 0, _ => none
  | fuel + 1, cs =>
    match skipWs cs with
    | '"' :: rest =>
      match parseJString rest with
      | none => none
      | some (key, rest2) =>
        match skipWs rest2 with
        | ':' :: rest3 =>
          match parseJValue (skipWs rest3) with
          | none => none
          | some (v, rest4) =>
            match skipWs rest4 with
            | ',' :: rest5 =>
              (parseMembers fuel rest5).map (fun p => ((String.mk key, v) :: p.1, p.2))
            | '\x7d' :: rest5 => some ([(String.mk key, v)], rest5)
            | _ => none
        | _ => none
    | _ => none

/-- Model of `json.loads` on the payload grammar: one top-level object
with string/integer members, surrounded by optional whitespace. -/
def jsonParse (cs : List Char) : Option JVal :=
  match skipWs cs with
  | [] => none
  | c :: rest =>
    if c = '\x7b' then
      let body := skipWs rest
      if body.head? = some '\x7d' then
        if skipWs body.tail = [] then some (.jobj []) else none
      else
        match parseMembers (body.length + 1) body with
        | some (ms, rest2) => if skipWs rest2 = [] then some (.jobj ms) else none
        | none => none
    else none

/-- Python dict construction keeps the last binding of a duplicated JSON
key, hence the reversed search. -/
def objLookupLast (ms : List (String × JVal)) (key : String) : Option JVal :=
  match ms.reverse.find? (fun m => decide (m.1 = key)) with
  | some m => some m.2
  | none => none

/-- Model of Python `int(v)` on a JSON-decoded value: integers pass
through, strings parse as an optionally signed decimal numeral with
surrounding whitespace stripped; other shapes fail. -/
def pyIntOf (v : JVal) : Option Int :=
  match v with
  | .jint n => some n
  | .jstr s =>
    match parseIntTok (skipWs s.data) with
    | some (n, rest) => if skipWs rest = [] then some n else none
    | none => none
  | _ => none

/-- Model of Python `str(v)` on a JSON-decoded value of the payload
grammar: strings pass through, integers render in decimal. -/
def pyStrOf (v : JVal) : Option String :=
  match v with
  | .jstr s => some s
  | .jint n => some (String.mk (intDecimal n))
  | _ => none

/-- ASCII string over byte values below 128 (the base64 output). -/
def asciiStrOfBytes (bs : List Nat) : String :=
  String.mk (bs.map Char.ofNat)

/-- Model of `encode_cursor`: `json.dumps` of the dataclass dict, UTF-8
bytes, URL-safe base64, decoded back to `str` (the base64 output is
ASCII). -/
def encode_cursor (c : Cursor) : String :=
  asciiStrOfBytes (b64encodeBytes (utf8Encode (String.mk (jsonDumpCursor c))))

/-- Model of `decode_cursor`: base64-decode the token's UTF-8 bytes,
UTF-8-decode the payload, `json.loads` it, and rebuild the cursor with
`int()`/`str()` coercions of the three fields.  Every failure anywhere
in the pipeline collapses to `CursorError`, as the Python `except
Exception` clause re-raises `CursorError("Invalid cursor token")`. -/
def decode_cursor (token : String) : Except CursorError Cursor :=
  match b64decodeBytes (utf8Encode token) with
  | none => .error .invalid
  | some raw =>
    match utf8Decode raw with
    | none => .error .invalid
    | some payload =>
      match jsonParse payload with
      | some (.jobj ms) =>
        match objLookupLast ms "offset", objLookupLast ms "file_hash",
            objLookupLast ms "report_type" with
        | some vo, some vh, some vr =>
          match pyIntOf vo, pyStrOf vh, pyStrOf vr with
          | some o, some h, some r => .ok ⟨o, h, r⟩
          | _, _, _ => .error .invalid
        | _, _, _ => .error .invalid
      | _ => .error .invalid

/-- Model of `next_cursor`: advance the offset, keep identity fields. -/
def next_cursor (current : Cursor) (advance : Int) : Cursor :=
  ⟨current.offset + advance, current.file_hash, current.report_type⟩

/-- Model of `build_initial_cursor`. -/
def build_initial_cursor (file_hash report_type : String) (offset : Int := 0) : Cursor :=
  ⟨offset, file_hash, report_type⟩

/-- Model of `maybe_decode_cursor`: `None` and the empty string are
treated as "no cursor" (`if not token`); anything else is decoded. -/
def maybe_decode_cursor (token : Option String) : Except CursorError (Option Cursor) :=
  match token with
  | none => .ok none
  | some t => if t = "" then .ok none else (decode_cursor t).map some

/-! ## Pagination and the query endpoint (`datasets.paginate_collect`,
`routers/actions.py query_actions`) -/

/-- Model of `datasets.paginate_collect` over the filtered,
column-selected view, at the non-negative offsets the verified request
paths produce: slice `[offset, offset+limit+1)`, detect `has_more` by
the extra row, and trim it. -/
def paginate_collect {α : Type} (rows : List α) (limit : Nat) (offset : Nat) :
    List α × Bool :=
  let window := (rows.drop offset).take (limit + 1)
  let has_more := window.length > limit
  (if has_more then window.take limit else window, has_more)

/-- Model of the cursor prologue of `query_actions` (lines 93–102):
decode the token when present; a fingerprint mismatch discards the
stale offset and restarts at 0 with a fresh cursor object; a match
trusts the decoded offset; no token uses the validated non-negative
`offset` query parameter. -/
def effectiveState (token : Option String) (offsetParam : Nat)
    (bundleHash bundleFamily : String) : Except CursorError (Int × Cursor) :=
  match maybe_decode_cursor token with
  | .error e => .error e
  | .ok none =>
    .ok ((offsetParam : Int), build_initial_cursor bundleHash bundleFamily (offsetParam : Int))
  | .ok (some c) =>
    if c.file_hash ≠ bundleHash then
      .ok (0, build_initial_cursor bundleHash bundleFamily)
    else
      .ok (c.offset, c)

/-- Pagination-relevant fields of one `query_actions` response. -/
structure QueryPage (α : Type) where
  data : List α
  cursor : Option String
  has_more : Bool
deriving DecidableEq

/-- Model of one `query_actions` request over the already-filtered,
column-selected rows of the current bundle: cursor prologue, page fetch,
and next-token emission with `offset += len(rows)` when more rows
remain.  The slice is taken at `eff.toNat`: every theorem below only
exercises non-negative effective offsets (the `offset` parameter is
validated `ge=0` and server-issued cursors carry non-negative offsets),
so polars' negative-offset slice semantics is never modelled. -/
def query_actions_step {α : Type} (rows : List α)
    (bundleHash bundleFamily : String) (limit : Nat)
    (token : Option String) (offsetParam : Nat) :
    Except CursorError (QueryPage α) :=
  match effectiveState token offsetParam bundleHash bundleFamily with
  | .error e => .error e
  | .ok (eff, cur) =>
    let pr := paginate_collect rows limit eff.toNat
    let tok :=
      if pr.2 then some (encode_cursor (next_cursor cur (pr.1.length : Int))) else none
    .ok ⟨pr.1, tok, pr.2⟩

/-- Repeated paging: issue one request, then resubmit each returned
token until a response carries no cursor; collects the pages in order.
Fuel bounds the number of requests; the exhaustiveness theorem shows
`rows.length + 1` requests always suffice. -/
def paginate_run {α : Type} (rows : List α)
    (bundleHash bundleFamily : String) (limit : Nat) :
    Nat → Option String → Option (List (List α))
  | 0, _ => none
  | fuel + 1, token =>
    match query_actions_step rows bundleHash bundleFamily limit token 0 with
    | .error _ => none
    | .ok page =>
      match page.cursor with
      | none => some [page.data]
      | some t =>
        (paginate_run rows bundleHash bundleFamily limit fuel (some t)).map
          (page.data :: ·)

/-! ## Character helpers -/

theorem char_toNat_ofNat {n : Nat} (h : n.isValidChar) : (Char.ofNat n).toNat = n := by
  unfold Char.ofNat
  rw [dif_pos h]
  rfl

theorem char_ofNat_toNat (c : Char) : Char.ofNat c.toNat = c := by
  apply Char.ext
  have hv : c.toNat.isValidChar := c.valid
  unfold Char.ofNat
  rw [dif_pos hv]
  apply UInt32.ext
  rfl

theorem char_toNat_lt (c : Char) : c.toNat < 1114112 := by
  rcases c.valid with h | h
  · exact Nat.lt_trans h (by norm_num)
  · exact h.2

theorem char_toNat_not_surrogate (c : Char) : c.toNat < 55296 ∨ 57343 < c.toNat := by
  rcases c.valid with h | h
  · exact Or.inl h
  · exact Or.inr h.1

/-! ## C5: latest-file selection -/

/-- Specification of `selectLatest` on a non-empty candidate list: it
returns a member whose timestamp dominates all candidates. -/
theorem selectLatest_spec {P T : Type} [LinearOrder T] (l : List (P × T)) (hne : l ≠ []) :
    ∃ m, selectLatest l = some m ∧ m ∈ l ∧ ∀ x ∈ l, x.2 ≤ m.2 := by
  have htrans : ∀ a b c : P × T,
      (fun a b : P × T => decide (b.2 ≤ a.2)) a b = true →
      (fun a b : P × T => decide (b.2 ≤ a.2)) b c = true →
      (fun a b : P × T => decide (b.2 ≤ a.2)) a c = true := by
    intro a b c hab hbc
    simp only [decide_eq_true_eq] at *
    exact le_trans hbc hab
  have htotal : ∀ a b : P × T,
      ((fun a b : P × T => decide (b.2 ≤ a.2)) a b ||
        (fun a b : P × T => decide (b.2 ≤ a.2)) b a) = true := by
    intro a b
    rcases le_total b.2 a.2 with h | h <;> simp [h]
  have hperm := List.mergeSort_perm l (fun a b : P × T => decide (b.2 ≤ a.2))
  have hsorted := List.sorted_mergeSort htrans htotal l
  rcases hs : l.mergeSort (fun a b : P × T => decide (b.2 ≤ a.2)) with _ | ⟨m, rest⟩
  · exfalso
    apply hne
    have := hperm.length_eq
    rw [hs] at this
    exact List.length_eq_zero.mp this.symm
  · refine ⟨m, ?_, ?_, ?_⟩
    · simp [selectLatest, sortCandidates, hs]
    · have : m ∈ l.mergeSort (fun a b : P × T => decide (b.2 ≤ a.2)) := by
        rw [hs]; exact List.mem_cons_self m rest
      exact hperm.subset this
    · intro x hx
      have hx2 : x ∈ l.mergeSort (fun a b : P × T => decide (b.2 ≤ a.2)) :=
        hperm.symm.subset hx
      rw [hs] at hx2
      rcases List.mem_cons.mp hx2 with rfl | hx3
      · exact le_refl _
      · rw [hs] at hsorted
        have := (List.pairwise_cons.mp hsorted).1 x hx3
        simpa using this

/-- Verifies C5: for every non-empty candidate set with pairwise
distinct parsed production timestamps, `_discover_files` selects the
candidate with the maximum timestamp, and the same candidate is
selected for every enumeration order of the set. -/
theorem discovery_selects_max_timestamp {P T : Type} [LinearOrder T]
    (l : List (P × T)) (hne : l ≠ [])
    (hdist : l.Pairwise (fun a b => a.2 ≠ b.2)) :
    ∃ m, selectLatest l = some m ∧ m ∈ l ∧ (∀ x ∈ l, x.2 ≤ m.2) ∧
      ∀ l2, l2.Perm l → selectLatest l2 = some m := by
  obtain ⟨m, hsel, hmem, hmax⟩ := selectLatest_spec l hne
  refine ⟨m, hsel, hmem, hmax, ?_⟩
  intro l2 hp
  have hne2 : l2 ≠ [] := by
    intro h
    apply hne
    have := hp.length_eq
    rw [h] at this
    exact List.length_eq_zero.mp this.symm
  obtain ⟨m2, hsel2, hmem2, hmax2⟩ := selectLatest_spec l2 hne2
  have hm2l : m2 ∈ l := hp.subset hmem2
  have heq : m.2 = m2.2 :=
    le_antisymm (hmax2 m (hp.mem_iff.mpr hmem)) (hmax m2 hm2l)
  by_cases hmm : m = m2
  · rw [hsel2, hmm]
  · exfalso
    have hsymm : Symmetric (fun a b : P × T => a.2 ≠ b.2) := by
      intro a b hab
      exact fun e => hab e.symm
    exact hdist.forall hsymm hmem hm2l hmm heq

/-- Witness for C5 at a concrete candidate list. -/
theorem discovery_selects_max_timestamp_witness :
    ∃ m, selectLatest [("a", 3), ("b", 7), ("c", 5)] = some m ∧
      m ∈ [("a", (3 : Nat)), ("b", 7), ("c", 5)] ∧
      (∀ x ∈ [("a", (3 : Nat)), ("b", 7), ("c", 5)], x.2 ≤ m.2) ∧
      ∀ l2, l2.Perm [("a", (3 : Nat)), ("b", 7), ("c", 5)] → selectLatest l2 = some m :=
  discovery_selects_max_timestamp [("a", 3), ("b", 7), ("c", 5)]
    (by decide) (by decide)

/-! ## C6: local configuration disables remote discovery -/

/-- Verifies C6: with a configured local source directory, the remote
candidate list is empty before any remote state is consulted, discovery
is independent of the remote listing, and zero local matches make
resolution fail rather than fall back to remote. -/
theorem local_config_disables_remote_discovery {T : Type} [LinearOrder T]
    (mk : String → String → T) (cfg : DiscoveryConfig) (d : String)
    (hcfg : cfg.settingsLocalPath = some d)
    (fs fs2 : FsState) (hloc : fs.localDir = fs2.localDir) (cat : Category) :
    discover_remote_files mk cfg fs cat = [] ∧
    discover_files mk cfg fs cat = discover_files mk cfg fs2 cat ∧
    (discover_local_files mk cfg fs cat = [] → discover_files mk cfg fs cat = none) := by
  have hrem : ∀ fs3 : FsState, discover_remote_files mk cfg fs3 cat = [] := by
    intro fs3
    simp [discover_remote_files, hcfg]
  have hlocal : discover_local_files mk cfg fs cat = discover_local_files mk cfg fs2 cat := by
    simp [discover_local_files, hloc]
  refine ⟨hrem fs, ?_, ?_⟩
  · simp [discover_files, hrem, hlocal]
  · intro hempty
    simp [discover_files, hempty, hrem, selectLatest, sortCandidates]

/-- Witness for C6 at a concrete configuration whose local directory
yields no matches while the remote listing has a candidate. -/
theorem local_config_disables_remote_discovery_witness :
    discover_remote_files (fun _ _ => (0 : Nat)) ⟨some "/data", none⟩
      ⟨fun _ => [], ["RS_Action_Lvl_20240101_010000.txt"]⟩ Category.actions = [] ∧
    discover_files (fun _ _ => (0 : Nat)) ⟨some "/data", none⟩
      ⟨fun _ => [], ["RS_Action_Lvl_20240101_010000.txt"]⟩ Category.actions =
      discover_files (fun _ _ => (0 : Nat)) ⟨some "/data", none⟩
        ⟨fun _ => [], []⟩ Category.actions ∧
    (discover_local_files (fun _ _ => (0 : Nat)) ⟨some "/data", none⟩
        ⟨fun _ => [], ["RS_Action_Lvl_20240101_010000.txt"]⟩ Category.actions = [] →
      discover_files (fun _ _ => (0 : Nat)) ⟨some "/data", none⟩
        ⟨fun _ => [], ["RS_Action_Lvl_20240101_010000.txt"]⟩ Category.actions = none) :=
  local_config_disables_remote_discovery (fun _ _ => (0 : Nat)) ⟨some "/data", none⟩
    "/data" rfl ⟨fun _ => [], ["RS_Action_Lvl_20240101_010000.txt"]⟩
    ⟨fun _ => [], []⟩ rfl Category.actions

/-! ## C7: the free-text user filter compiles its term as a regex -/

/-- Refutes C7 as stated and exhibits the divergence: the term `"a.c"`
is not a substring of either user column of the row
`⟨"abc", "zz"⟩`, so the claimed substring semantics excludes the row,
but the code's `str.contains` — regex semantics, where `.` is a
wildcard — keeps it. -/
theorem user_filter_regex_divergence :
    userFilterKeeps "a.c" ⟨"abc", "zz"⟩ = true ∧
    userFilterKeepsSpec "a.c" ⟨"abc", "zz"⟩ = false := by
  decide

/-! ## C8: the critical flag is overwritten from the file name -/

/-- Membership form of the C8 property, used to derive the row-wise
boolean form below. -/
theorem normalize_rows_mem (f : Frame) (rt : Category) (fileName : String) :
    ∀ r ∈ (normalize_lazyframe f rt fileName).rows,
      r "IsCritical" = Cell.bool (strContains (strLower (stemOf fileName)) "crit") ∧
      r "ReportType" =
        Cell.str (report_type_label rt (strContains (strLower (stemOf fileName)) "crit")) := by
  intro r hr
  simp only [normalize_lazyframe, selectColumns, withColumnLit, List.mem_map] at hr
  obtain ⟨r3, ⟨r2, hr2, rfl⟩, rfl⟩ := hr
  constructor
  · simp
  · simp

/-- Verifies C8: every row of a normalized frame carries
`IsCritical = (the file's stem contains "crit", case-insensitively)` —
regardless of any is-critical content in the source frame — and the
derived `ReportType` label is computed from the category and that
flag. -/
theorem normalize_overwrites_is_critical (f : Frame) (rt : Category) (fileName : String) :
    (normalize_lazyframe f rt fileName).rows.all
      (fun r =>
        decide (r "IsCritical" =
          Cell.bool (strContains (strLower (stemOf fileName)) "crit")) &&
        decide (r "ReportType" =
          Cell.str (report_type_label rt
            (strContains (strLower (stemOf fileName)) "crit")))) := by
  rw [List.all_eq_true]
  intro r hr
  have h := normalize_rows_mem f rt fileName r hr
  simp [h.1, h.2]

/-! ## C9: missing candidate raises and stores nothing -/

/-- Verifies C9: on a cache miss with no discovered candidate,
`get_latest_file_with_hash` fails with the no-file error carrying the
requested category, and the cache is left untouched — in particular no
entry is stored for that category. -/
theorem no_candidate_raises_and_stores_nothing
    (cache discover : Category → Option FileRecordM) (cat : Category)
    (hmiss : cache cat = none) (hnone : discover cat = none) :
    get_latest_file_with_hash cache discover cat =
      (.error (.noFileFound cat), cache) ∧
    (get_latest_file_with_hash cache discover cat).2 cat = none := by
  unfold get_latest_file_with_hash
  rw [hmiss, hnone]
  exact ⟨rfl, hmiss⟩

/-- Witness for C9 at the empty cache and empty discovery. -/
theorem no_candidate_raises_and_stores_nothing_witness :
    get_latest_file_with_hash (fun _ => none) (fun _ => none) Category.perms =
      (.error (.noFileFound Category.perms), fun _ => none) ∧
    (get_latest_file_with_hash (fun _ => none) (fun _ => none) Category.perms).2
      Category.perms = none :=
  no_candidate_raises_and_stores_nothing (fun _ => none) (fun _ => none)
    Category.perms rfl rfl

/-! ## C10: cursor decoding validates structure, not ranges -/

/-- Verifies C10: a well-formed token carrying a negative offset decodes
successfully to that offset, and the cursor prologue of `query_actions`
adopts it as the effective offset whenever the token's fingerprint
matches the current bundle, for every value of the `offset` query
parameter. -/
theorem decode_validates_structure_not_range :
    decode_cursor (encode_cursor ⟨-5, "h", "actions"⟩) =
      .ok ⟨-5, "h", "actions"⟩ ∧
    ∀ p : Nat, effectiveState (some (encode_cursor ⟨-5, "h", "actions"⟩)) p
      "h" "actions" = .ok (-5, ⟨-5, "h", "actions"⟩) :=
  ⟨rfl, fun _ => rfl⟩

/-! ## Decimal rendering: digit facts, value round-trip, injectivity -/

theorem digitCh_toNat {n : Nat} (h : n < 10) : (digitCh n).toNat = 48 + n :=
  char_toNat_ofNat (Or.inl (by omega))

theorem natDecimalAux_all_digit :
    ∀ (fuel n : Nat), ∀ c ∈ natDecimalAux fuel n, isDigitCh c = true := by
  intro fuel
  induction fuel with
  | zero => intro n c hc; simp [natDecimalAux] at hc
  | succ fuel ih =>
    intro n c hc
    by_cases h10 : n < 10
    · simp only [natDecimalAux, if_pos h10, List.mem_singleton] at hc
      subst hc
      simp [isDigitCh, digitCh_toNat h10]
      omega
    · simp only [natDecimalAux, if_neg h10, List.mem_append, List.mem_singleton] at hc
      rcases hc with hc | hc
      · exact ih (n / 10) c hc
      · subst hc
        have hlt : n % 10 < 10 := Nat.mod_lt n (by omega)
        simp [isDigitCh, digitCh_toNat hlt]
        omega

theorem natDecimal_all_digit (n : Nat) : ∀ c ∈ natDecimal n, isDigitCh c = true :=
  natDecimalAux_all_digit (n + 1) n

theorem natDecimal_ne_nil (n : Nat) : natDecimal n ≠ [] := by
  unfold natDecimal natDecimalAux
  by_cases h10 : n < 10
  · simp [h10]
  · simp [h10]

theorem digitsVal_append_digit (l : List Char) (c : Char) :
    digitsVal (l ++ [c]) = digitsVal l * 10 + (c.toNat - 48) := by
  simp [digitsVal, List.foldl_append]

theorem digitsVal_natDecimalAux :
    ∀ (fuel n : Nat), n < fuel → digitsVal (natDecimalAux fuel n) = n := by
  intro fuel
  induction fuel with
  | zero => intro n h; omega
  | succ fuel ih =>
    intro n h
    by_cases h10 : n < 10
    · simp only [natDecimalAux, if_pos h10]
      simp [digitsVal, digitCh_toNat h10]
    · simp only [natDecimalAux, if_neg h10]
      rw [digitsVal_append_digit]
      have hdiv : n / 10 < fuel := by
        have h1 : n / 10 < n := Nat.div_lt_self (by omega) (by omega)
        omega
      rw [ih (n / 10) hdiv]
      have hlt : n % 10 < 10 := Nat.mod_lt n (by omega)
      rw [digitCh_toNat hlt]
      omega

theorem digitsVal_natDecimal (n : Nat) : digitsVal (natDecimal n) = n :=
  digitsVal_natDecimalAux (n + 1) n (by omega)

theorem natDecimal_inj {a b : Nat} (h : natDecimal a = natDecimal b) : a = b := by
  have := congrArg digitsVal h
  rwa [digitsVal_natDecimal, digitsVal_natDecimal] at this

theorem digit_ne_dash {c : Char} (h : isDigitCh c = true) : c ≠ '-' := by
  intro hc
  subst hc
  simp [isDigitCh] at h

theorem natDecimal_head_digit (n : Nat) :
    ∃ c cs, natDecimal n = c :: cs ∧ isDigitCh c = true := by
  rcases hd : natDecimal n with _ | ⟨c, cs⟩
  · exact absurd hd (natDecimal_ne_nil _)
  · refine ⟨c, cs, rfl, ?_⟩
    apply natDecimal_all_digit n
    rw [hd]
    exact List.mem_cons_self c cs

theorem intDecimal_inj {i j : Int} (h : intDecimal i = intDecimal j) : i = j := by
  unfold intDecimal at h
  by_cases hi : i < 0
  · rw [if_pos hi] at h
    by_cases hj : j < 0
    · rw [if_pos hj] at h
      simp only [List.cons.injEq, true_and] at h
      have habs : i.natAbs = j.natAbs := natDecimal_inj h
      omega
    · rw [if_neg hj] at h
      obtain ⟨c2, cs2, hd2, hdig2⟩ := natDecimal_head_digit j.natAbs
      rw [hd2] at h
      simp only [List.cons.injEq] at h
      exact absurd h.1.symm (digit_ne_dash hdig2)
  · rw [if_neg hi] at h
    by_cases hj : j < 0
    · rw [if_pos hj] at h
      obtain ⟨c, cs, hd, hdig⟩ := natDecimal_head_digit i.natAbs
      rw [hd] at h
      simp only [List.cons.injEq] at h
      exact absurd h.1 (digit_ne_dash hdig)
    · rw [if_neg hj] at h
      have habs : i.natAbs = j.natAbs := natDecimal_inj h
      omega

theorem digit_ne_colon {c : Char} (h : isDigitCh c = true) : c ≠ ':' := by
  intro hc
  subst hc
  simp [isDigitCh] at h

theorem intDecimal_no_colon (i : Int) : ':' ∉ intDecimal i := by
  intro hmem
  unfold intDecimal at hmem
  by_cases hi : i < 0 <;> simp only [hi, if_true, if_false, if_pos, if_neg] at hmem
  · rcases List.mem_cons.mp hmem with hc | hc
    · exact absurd hc.symm (by decide)
    · exact absurd rfl (digit_ne_colon (natDecimal_all_digit _ _ hc))
  · exact absurd rfl (digit_ne_colon (natDecimal_all_digit _ _ hmem))

theorem natDecimal_no_colon (n : Nat) : ':' ∉ natDecimal n := by
  intro hmem
  exact absurd rfl (digit_ne_colon (natDecimal_all_digit _ _ hmem))

/-! ## Colon-separated field splitting -/

theorem split_first_colon :
    ∀ (x1 : List Char) (y1 : List Char) (x2 y2 : List Char),
      ':' ∉ x1 → ':' ∉ x2 → x1 ++ ':' :: y1 = x2 ++ ':' :: y2 →
      x1 = x2 ∧ y1 = y2 := by
  intro x1
  induction x1 with
  | nil =>
    intro y1 x2 y2 _ hx2 heq
    cases x2 with
    | nil =>
      simp at heq
      exact ⟨rfl, heq⟩
    | cons c x2t =>
      simp at heq
      exact absurd (heq.1 ▸ List.mem_cons_self c x2t) (heq.1 ▸ hx2)
  | cons c x1t ih =>
    intro y1 x2 y2 hx1 hx2 heq
    cases x2 with
    | nil =>
      simp at heq
      exact absurd (heq.1 ▸ List.mem_cons_self c x1t) (heq.1 ▸ hx1)
    | cons c2 x2t =>
      simp only [List.cons_append, List.cons.injEq] at heq
      obtain ⟨rfl, heq2⟩ := heq
      have hx1t : ':' ∉ x1t := fun hm => hx1 (List.mem_cons_of_mem _ hm)
      have hx2t : ':' ∉ x2t := fun hm => hx2 (List.mem_cons_of_mem _ hm)
      obtain ⟨rfl, rfl⟩ := ih y1 x2t y2 hx1t hx2t heq2
      exact ⟨rfl, rfl⟩

theorem split_last_colon (l1 r1 l2 r2 : List Char)
    (hr1 : ':' ∉ r1) (hr2 : ':' ∉ r2)
    (heq : l1 ++ ':' :: r1 = l2 ++ ':' :: r2) : l1 = l2 ∧ r1 = r2 := by
  have hrev : r1.reverse ++ ':' :: l1.reverse = r2.reverse ++ ':' :: l2.reverse := by
    have := congrArg List.reverse heq
    simpa [List.reverse_append] using this
  have hnr1 : ':' ∉ r1.reverse := by simpa using hr1
  have hnr2 : ':' ∉ r2.reverse := by simpa using hr2
  obtain ⟨h1, h2⟩ := split_first_colon r1.reverse l1.reverse r2.reverse l2.reverse hnr1 hnr2 hrev
  constructor
  · exact List.reverse_injective h2
  · exact List.reverse_injective h1

/-! ## C4: fingerprint identity -/

/-- Character-list view of the fingerprint. -/
theorem compute_file_hash_data (name : String) (size : Nat) (mtime : ℚ) :
    (compute_file_hash name size mtime).data =
      name.data ++ ':' :: natDecimal size ++ ':' :: intDecimal (intTrunc mtime) := by
  simp [compute_file_hash, String.data_append]

/-- Refutes C4 as stated: the modification time changes from 5.2s to
5.7s — the (name, size, mtime) triple changes — yet the computed
fingerprint is identical, because `_compute_file_hash` truncates
`st_mtime` with `int()`. -/
theorem fingerprint_subsecond_mtime_counterexample :
    compute_file_hash "a.txt" 12 (mkRat 26 5) =
      compute_file_hash "a.txt" 12 (mkRat 57 10) ∧
    mkRat 26 5 ≠ mkRat 57 10 := by
  constructor
  · rfl
  · decide

/-- Verifies the amended C4: the fingerprint changes if and only if the
file's name, size, or whole-second-truncated modification time changes;
identical such triples always produce an identical fingerprint. -/
theorem fingerprint_eq_iff (n1 n2 : String) (s1 s2 : Nat) (m1 m2 : ℚ) :
    compute_file_hash n1 s1 m1 = compute_file_hash n2 s2 m2 ↔
      (n1 = n2 ∧ s1 = s2 ∧ intTrunc m1 = intTrunc m2) := by
  constructor
  · intro h
    have hdata := congrArg String.data h
    rw [compute_file_hash_data, compute_file_hash_data] at hdata
    have htail1 : ':' ∉ intDecimal (intTrunc m1) := intDecimal_no_colon _
    have htail2 : ':' ∉ intDecimal (intTrunc m2) := intDecimal_no_colon _
    have hmid :
        (n1.data ++ ':' :: natDecimal s1) ++ ':' :: intDecimal (intTrunc m1) =
        (n2.data ++ ':' :: natDecimal s2) ++ ':' :: intDecimal (intTrunc m2) := by
      simpa [List.append_assoc] using hdata
    obtain ⟨hfront, hm⟩ := split_last_colon _ _ _ _ htail1 htail2 hmid
    obtain ⟨hname, hsize⟩ :=
      split_last_colon _ _ _ _ (natDecimal_no_colon s1) (natDecimal_no_colon s2) hfront
    refine ⟨?_, natDecimal_inj hsize, intDecimal_inj hm⟩
    cases n1
    cases n2
    exact congrArg String.mk hname
  · rintro ⟨rfl, rfl, hm⟩
    simp [compute_file_hash, hm]

/-! ## Base64 round-trip -/

theorem six_roundtrip : ∀ n < 64, sixVal (sixChar n) = some n := by decide

theorem sixChar_ne_61 : ∀ n < 64, sixChar n ≠ 61 := by decide

theorem sixChar_lt_128 (n : Nat) : sixChar n < 128 := by
  unfold sixChar
  repeat' split
  all_goals omega

theorem b64encodeBytes_ne_nil : ∀ bs : List Nat, bs ≠ [] → b64encodeBytes bs ≠ [] := by
  intro bs hne
  match bs with
  | [] => exact absurd rfl hne
  | [b1] => simp [b64encodeBytes]
  | [b1, b2] => simp [b64encodeBytes]
  | b1 :: b2 :: b3 :: rest => simp [b64encodeBytes]

theorem b64_roundtrip :
    ∀ bs : List Nat, (∀ b ∈ bs, b < 256) →
      b64decodeBytes (b64encodeBytes bs) = some bs := by
  intro bs
  induction bs using b64encodeBytes.induct with
  | case1 => intro _; rfl
  | case2 b1 =>
    intro hb
    have h1 : b1 < 256 := hb b1 (by simp)
    simp only [b64encodeBytes, b64decodeBytes, List.isEmpty_nil, if_true]
    rw [if_pos ⟨trivial, trivial⟩]
    rw [six_roundtrip (b1 / 4) (by omega), six_roundtrip (b1 % 4 * 16) (by omega)]
    simp only [Option.bind_eq_bind, Option.some_bind]
    have e1 : b1 / 4 * 4 + b1 % 4 * 16 / 16 = b1 := by omega
    rw [e1]
    rfl
  | case3 b1 b2 =>
    intro hb
    have h1 : b1 < 256 := hb b1 (by simp)
    have h2 : b2 < 256 := hb b2 (by simp)
    simp only [b64encodeBytes, b64decodeBytes, List.isEmpty_nil, if_true]
    rw [if_neg (by
      rintro ⟨h61, -⟩
      exact sixChar_ne_61 (b2 % 16 * 4) (by omega) h61)]
    rw [six_roundtrip (b1 / 4) (by omega),
      six_roundtrip (b1 % 4 * 16 + b2 / 16) (by omega),
      six_roundtrip (b2 % 16 * 4) (by omega)]
    simp only [Option.bind_eq_bind, Option.some_bind]
    have e1 : b1 / 4 * 4 + (b1 % 4 * 16 + b2 / 16) / 16 = b1 := by omega
    have e2 : (b1 % 4 * 16 + b2 / 16) % 16 * 16 + b2 % 16 * 4 / 4 = b2 := by omega
    rw [e1, e2]
    rfl
  | case4 b1 b2 b3 rest ih =>
    intro hb
    have h1 : b1 < 256 := hb b1 (by simp)
    have h2 : b2 < 256 := hb b2 (by simp)
    have h3 : b3 < 256 := hb b3 (by simp)
    have hrest : ∀ b ∈ rest, b < 256 := fun b hm => hb b (by simp [hm])
    have e1 : b1 / 4 * 4 + (b1 % 4 * 16 + b2 / 16) / 16 = b1 := by omega
    have e2 : (b1 % 4 * 16 + b2 / 16) % 16 * 16 + (b2 % 16 * 4 + b3 / 64) / 4 = b2 := by
      omega
    have e3 : (b2 % 16 * 4 + b3 / 64) % 4 * 64 + b3 % 64 = b3 := by omega
    by_cases hr : rest = []
    · subst hr
      simp only [b64encodeBytes, b64decodeBytes, List.isEmpty_nil, if_true]
      rw [if_neg (by
        intro hg
        exact sixChar_ne_61 (b2 % 16 * 4 + b3 / 64) (by omega) hg.1)]
      rw [if_neg (by
        intro h61
        exact sixChar_ne_61 (b3 % 64) (by omega) h61)]
      rw [six_roundtrip (b1 / 4) (by omega),
        six_roundtrip (b1 % 4 * 16 + b2 / 16) (by omega),
        six_roundtrip (b2 % 16 * 4 + b3 / 64) (by omega),
        six_roundtrip (b3 % 64) (by omega)]
      simp only [Option.bind_eq_bind, Option.some_bind]
      rw [e1, e2, e3]
      rfl
    · have henc : b64encodeBytes rest ≠ [] := b64encodeBytes_ne_nil rest hr
      simp only [b64encodeBytes, b64decodeBytes]
      rw [if_neg (by
        intro hemp
        exact henc (List.isEmpty_iff.mp hemp))]
      rw [six_roundtrip (b1 / 4) (by omega),
        six_roundtrip (b1 % 4 * 16 + b2 / 16) (by omega),
        six_roundtrip (b2 % 16 * 4 + b3 / 64) (by omega),
        six_roundtrip (b3 % 64) (by omega)]
      rw [ih hrest]
      simp only [Option.bind_eq_bind, Option.some_bind]
      rw [e1, e2, e3]
      rfl

theorem b64encodeBytes_lt_128 :
    ∀ bs : List Nat, ∀ x ∈ b64encodeBytes bs, x < 128 := by
  intro bs
  induction bs using b64encodeBytes.induct with
  | case1 => intro x hx; simp [b64encodeBytes] at hx
  | case2 b1 =>
    intro x hx
    simp only [b64encodeBytes, List.mem_cons, List.not_mem_nil, or_false] at hx
    rcases hx with rfl | rfl | rfl | rfl
    · exact sixChar_lt_128 _
    · exact sixChar_lt_128 _
    · omega
    · omega
  | case3 b1 b2 =>
    intro x hx
    simp only [b64encodeBytes, List.mem_cons, List.not_mem_nil, or_false] at hx
    rcases hx with rfl | rfl | rfl | rfl
    · exact sixChar_lt_128 _
    · exact sixChar_lt_128 _
    · exact sixChar_lt_128 _
    · omega
  | case4 b1 b2 b3 rest ih =>
    intro x hx
    simp only [b64encodeBytes, List.mem_cons] at hx
    rcases hx with rfl | rfl | rfl | rfl | h
    · exact sixChar_lt_128 _
    · exact sixChar_lt_128 _
    · exact sixChar_lt_128 _
    · exact sixChar_lt_128 _
    · exact ih x h

/-! ## UTF-8 on ASCII payloads -/

theorem utf8EncodeChar_ascii {c : Char} (h : c.toNat < 128) :
    utf8EncodeChar c = [c.toNat] := by
  simp [utf8EncodeChar, h]

theorem utf8Encode_mk_ascii :
    ∀ l : List Char, (∀ c ∈ l, c.toNat < 128) →
      utf8Encode (String.mk l) = l.map Char.toNat := by
  intro l hl
  induction l with
  | nil => rfl
  | cons c t ih =>
    have hc : c.toNat < 128 := hl c (by simp)
    have ht : ∀ x ∈ t, x.toNat < 128 := fun x hx => hl x (by simp [hx])
    show (c :: t).flatMap utf8EncodeChar = _
    rw [List.flatMap_cons, utf8EncodeChar_ascii hc]
    have := ih ht
    show [c.toNat] ++ t.flatMap utf8EncodeChar = _
    rw [show t.flatMap utf8EncodeChar = utf8Encode (String.mk t) from rfl, this]
    rfl

theorem utf8DecodeAux_ascii :
    ∀ (fuel : Nat) (bs : List Nat), (∀ b ∈ bs, b < 128) → bs.length ≤ fuel →
      utf8DecodeAux fuel bs = some (bs.map Char.ofNat) := by
  intro fuel
  induction fuel with
  | zero =>
    intro bs hb hlen
    match bs with
    | [] => rfl
    | b :: rest => simp at hlen
  | succ fuel ih =>
    intro bs hb hlen
    match bs with
    | [] => rfl
    | b :: rest =>
      have hblt : b < 128 := hb b (by simp)
      have hrest : ∀ x ∈ rest, x < 128 := fun x hx => hb x (by simp [hx])
      simp only [utf8DecodeAux, if_pos hblt]
      rw [ih rest hrest (by simpa using Nat.le_of_succ_le_succ (by simpa using hlen))]
      rfl

theorem utf8Decode_ascii (bs : List Nat) (h : ∀ b ∈ bs, b < 128) :
    utf8Decode bs = some (bs.map Char.ofNat) :=
  utf8DecodeAux_ascii bs.length bs h (le_refl _)

theorem map_toNat_ofNat (bs : List Nat) (h : ∀ b ∈ bs, b < 128) :
    (bs.map Char.ofNat).map Char.toNat = bs := by
  induction bs with
  | nil => rfl
  | cons b t ih =>
    have hb : b < 128 := h b (by simp)
    have ht : ∀ x ∈ t, x < 128 := fun x hx => h x (by simp [hx])
    simp only [List.map_cons, List.cons.injEq]
    exact ⟨char_toNat_ofNat (Or.inl (by omega)), ih ht⟩

theorem map_ofNat_toNat (l : List Char) :
    (l.map Char.toNat).map Char.ofNat = l := by
  induction l with
  | nil => rfl
  | cons c t ih =>
    simp only [List.map_cons, List.cons.injEq]
    exact ⟨char_ofNat_toNat c, ih⟩

theorem utf8Encode_asciiStr (bs : List Nat) (h : ∀ b ∈ bs, b < 128) :
    utf8Encode (asciiStrOfBytes bs) = bs := by
  unfold asciiStrOfBytes
  rw [utf8Encode_mk_ascii]
  · exact map_toNat_ofNat bs h
  · intro c hc
    obtain ⟨b, hb, rfl⟩ := List.mem_map.mp hc
    rw [char_toNat_ofNat (Or.inl (by have := h b hb; omega))]
    exact h b hb

/-! ## JSON string escaping round-trip -/

theorem char_eq_iff_toNat {c d : Char} : c = d ↔ c.toNat = d.toNat := by
  constructor
  · intro h; rw [h]
  · intro h
    have hc := char_ofNat_toNat c
    rw [h, char_ofNat_toNat d] at hc
    exact hc.symm

theorem hexdig_roundtrip : ∀ d < 16, parseHexDigit (hexDigitL d) = some d := by decide

theorem hex4val_hex4 (n : Nat) (h : n < 65536) :
    hex4val (hexDigitL (n / 4096 % 16)) (hexDigitL (n / 256 % 16))
      (hexDigitL (n / 16 % 16)) (hexDigitL (n % 16)) = some n := by
  simp only [hex4val]
  rw [hexdig_roundtrip _ (by omega), hexdig_roundtrip _ (by omega),
    hexdig_roundtrip _ (by omega), hexdig_roundtrip _ (by omega)]
  simp only [Option.bind_eq_bind, Option.some_bind]
  congr 1
  omega

theorem parse_two_char_escape (f : Nat) (e ec : Char) (T : List Char)
    (hu : e ≠ 'u') (hv : escCharVal e = some ec) :
    parseJStringAux (f + 1) ('\\' :: e :: T) =
      (parseJStringAux f T).map (fun p => (ec :: p.1, p.2)) := by
  simp only [parseJStringAux]
  rw [if_neg (show ('\\' : Char) ≠ '"' by decide), if_pos trivial, if_neg hu]
  simp only [hv]

theorem parse_u4_escape (f : Nat) (a b c2 d : Char) (m : Nat) (T : List Char)
    (hm : hex4val a b c2 d = some m) (hsur : m < 55296 ∨ 57343 < m) :
    parseJStringAux (f + 1) ('\\' :: 'u' :: a :: b :: c2 :: d :: T) =
      (parseJStringAux f T).map (fun p => (Char.ofNat m :: p.1, p.2)) := by
  simp only [parseJStringAux]
  rw [if_neg (show ('\\' : Char) ≠ '"' by decide), if_pos trivial, if_pos trivial]
  simp only [hm]
  rw [if_neg (by omega), if_neg (by omega)]

theorem parse_surrogate_escape (f : Nat) (a b c2 d a2 b2 c3 d2 : Char)
    (m m2 : Nat) (T : List Char)
    (hm : hex4val a b c2 d = some m) (hm2 : hex4val a2 b2 c3 d2 = some m2)
    (hr1 : 55296 ≤ m ∧ m ≤ 56319) (hr2 : 56320 ≤ m2 ∧ m2 ≤ 57343) :
    parseJStringAux (f + 1)
        ('\\' :: 'u' :: a :: b :: c2 :: d :: '\\' :: 'u' :: a2 :: b2 :: c3 :: d2 :: T) =
      (parseJStringAux f T).map
        (fun p => (Char.ofNat (65536 + (m - 55296) * 1024 + (m2 - 56320)) :: p.1, p.2)) := by
  simp only [parseJStringAux]
  rw [if_neg (show ('\\' : Char) ≠ '"' by decide), if_pos trivial, if_pos trivial]
  simp only [hm]
  rw [if_pos hr1, if_pos (⟨trivial, trivial⟩ : True ∧ True)]
  simp only [hm2]
  rw [if_pos hr2]

theorem parse_plain_char (f : Nat) (c : Char) (T : List Char)
    (h1 : c ≠ '"') (h2 : c ≠ '\\') (h3 : ¬ c.toNat < 32) :
    parseJStringAux (f + 1) (c :: T) =
      (parseJStringAux f T).map (fun p => (c :: p.1, p.2)) := by
  simp only [parseJStringAux]
  rw [if_neg h1, if_neg h2, if_neg h3]

set_option maxHeartbeats 2000000 in
theorem parseJStringAux_escape :
    ∀ (l rest : List Char) (fuel : Nat),
      (escChars l ++ '"' :: rest).length ≤ fuel →
      parseJStringAux fuel (escChars l ++ '"' :: rest) = some (l, rest) := by
  intro l
  induction l with
  | nil =>
    intro rest fuel hf
    simp only [escChars, List.flatMap_nil, List.nil_append] at hf ⊢
    cases fuel with
    | zero => simp at hf
    | succ f =>
      simp only [parseJStringAux]
      rw [if_pos trivial]
  | cons c l ih =>
    intro rest fuel hf
    have hsplit : escChars (c :: l) ++ '"' :: rest =
        escapeChar c ++ (escChars l ++ '"' :: rest) := by
      simp [escChars]
    rw [hsplit] at hf ⊢
    have hlenesc : 1 ≤ (escapeChar c).length := by
      simp only [escapeChar]
      repeat' split
      all_goals simp
    have hlen : (escChars l ++ '"' :: rest).length + (escapeChar c).length ≤ fuel := by
      rw [List.length_append] at hf
      omega
    obtain ⟨f, rfl⟩ : ∃ f, fuel = f + 1 := ⟨fuel - 1, by omega⟩
    have hrec : (escChars l ++ '"' :: rest).length ≤ f := by omega
    have hihf := ih rest f hrec
    by_cases hq : c = '"'
    · have he : escapeChar c = ['\\', '"'] := by simp [escapeChar, hq]
      rw [he]
      rw [show (['\\', '"'] : List Char) ++ (escChars l ++ '"' :: rest) =
        '\\' :: '"' :: (escChars l ++ '"' :: rest) from rfl]
      rw [parse_two_char_escape f '"' '"' _ (by decide) rfl, hihf, hq]
      rfl
    · by_cases hbs : c = '\\'
      · have he : escapeChar c = ['\\', '\\'] := by simp [escapeChar, hq, hbs]
        rw [he]
        rw [show (['\\', '\\'] : List Char) ++ (escChars l ++ '"' :: rest) =
          '\\' :: '\\' :: (escChars l ++ '"' :: rest) from rfl]
        rw [parse_two_char_escape f '\\' '\\' _ (by decide) rfl, hihf, hbs]
        rfl
      · by_cases h8 : c.toNat = 8
        · have he : escapeChar c = ['\\', 'b'] := by simp [escapeChar, hq, hbs, h8]
          rw [he]
          rw [show (['\\', 'b'] : List Char) ++ (escChars l ++ '"' :: rest) =
            '\\' :: 'b' :: (escChars l ++ '"' :: rest) from rfl]
          rw [parse_two_char_escape f 'b' (Char.ofNat 8) _ (by decide) rfl, hihf]
          have : Char.ofNat 8 = c := by
            rw [show (8 : Nat) = c.toNat from h8.symm]
            exact char_ofNat_toNat c
          rw [this]
          rfl
        · by_cases h9 : c.toNat = 9
          · have he : escapeChar c = ['\\', 't'] := by simp [escapeChar, hq, hbs, h8, h9]
            rw [he]
            rw [show (['\\', 't'] : List Char) ++ (escChars l ++ '"' :: rest) =
              '\\' :: 't' :: (escChars l ++ '"' :: rest) from rfl]
            rw [parse_two_char_escape f 't' (Char.ofNat 9) _ (by decide) rfl, hihf]
            have : Char.ofNat 9 = c := by
              rw [show (9 : Nat) = c.toNat from h9.symm]
              exact char_ofNat_toNat c
            rw [this]
            rfl
          · by_cases h10 : c.toNat = 10
            · have he : escapeChar c = ['\\', 'n'] := by
                simp [escapeChar, hq, hbs, h8, h9, h10]
              rw [he]
              rw [show (['\\', 'n'] : List Char) ++ (escChars l ++ '"' :: rest) =
                '\\' :: 'n' :: (escChars l ++ '"' :: rest) from rfl]
              rw [parse_two_char_escape f 'n' (Char.ofNat 10) _ (by decide) rfl, hihf]
              have : Char.ofNat 10 = c := by
                rw [show (10 : Nat) = c.toNat from h10.symm]
                exact char_ofNat_toNat c
              rw [this]
              rfl
            · by_cases h12 : c.toNat = 12
              · have he : escapeChar c = ['\\', 'f'] := by
                  simp [escapeChar, hq, hbs, h8, h9, h10, h12]
                rw [he]
                rw [show (['\\', 'f'] : List Char) ++ (escChars l ++ '"' :: rest) =
                  '\\' :: 'f' :: (escChars l ++ '"' :: rest) from rfl]
                rw [parse_two_char_escape f 'f' (Char.ofNat 12) _ (by decide) rfl, hihf]
                have : Char.ofNat 12 = c := by
                  rw [show (12 : Nat) = c.toNat from h12.symm]
                  exact char_ofNat_toNat c
                rw [this]
                rfl
              · by_cases h13 : c.toNat = 13
                · have he : escapeChar c = ['\\', 'r'] := by
                    simp [escapeChar, hq, hbs, h8, h9, h10, h12, h13]
                  rw [he]
                  rw [show (['\\', 'r'] : List Char) ++ (escChars l ++ '"' :: rest) =
                    '\\' :: 'r' :: (escChars l ++ '"' :: rest) from rfl]
                  rw [parse_two_char_escape f 'r' (Char.ofNat 13) _ (by decide) rfl, hihf]
                  have : Char.ofNat 13 = c := by
                    rw [show (13 : Nat) = c.toNat from h13.symm]
                    exact char_ofNat_toNat c
                  rw [this]
                  rfl
                · by_cases h32 : c.toNat < 32
                  · have he : escapeChar c = '\\' :: 'u' :: hex4 c.toNat := by
                      simp [escapeChar, hq, hbs, h8, h9, h10, h12, h13, h32]
                    rw [he]
                    rw [show ('\\' :: 'u' :: hex4 c.toNat) ++ (escChars l ++ '"' :: rest) =
                      '\\' :: 'u' :: hexDigitL (c.toNat / 4096 % 16) ::
                        hexDigitL (c.toNat / 256 % 16) :: hexDigitL (c.toNat / 16 % 16) ::
                        hexDigitL (c.toNat % 16) :: (escChars l ++ '"' :: rest) from by
                      simp [hex4]]
                    rw [parse_u4_escape f _ _ _ _ c.toNat _
                      (hex4val_hex4 c.toNat (by omega)) (by omega), hihf]
                    rw [char_ofNat_toNat c]
                    rfl
                  · by_cases h127 : c.toNat < 127
                    · have he : escapeChar c = [c] := by
                        simp [escapeChar, hq, hbs, h8, h9, h10, h12, h13, h32, h127]
                      rw [he]
                      rw [show ([c] : List Char) ++ (escChars l ++ '"' :: rest) =
                        c :: (escChars l ++ '"' :: rest) from rfl]
                      rw [parse_plain_char f c _ hq hbs h32, hihf]
                      rfl
                    · by_cases h65536 : c.toNat < 65536
                      · have he : escapeChar c = '\\' :: 'u' :: hex4 c.toNat := by
                          simp [escapeChar, hq, hbs, h8, h9, h10, h12, h13, h32, h127,
                            h65536]
                        rw [he]
                        rw [show ('\\' :: 'u' :: hex4 c.toNat) ++
                            (escChars l ++ '"' :: rest) =
                          '\\' :: 'u' :: hexDigitL (c.toNat / 4096 % 16) ::
                            hexDigitL (c.toNat / 256 % 16) ::
                            hexDigitL (c.toNat / 16 % 16) ::
                            hexDigitL (c.toNat % 16) :: (escChars l ++ '"' :: rest) from by
                          simp [hex4]]
                        have hns := char_toNat_not_surrogate c
                        rw [parse_u4_escape f _ _ _ _ c.toNat _
                          (hex4val_hex4 c.toNat (by omega)) (by omega), hihf]
                        rw [char_ofNat_toNat c]
                        rfl
                      · have he : escapeChar c =
                            ('\\' :: 'u' :: hex4 (55296 + (c.toNat - 65536) / 1024)) ++
                            ('\\' :: 'u' :: hex4 (56320 + (c.toNat - 65536) % 1024)) := by
                          simp [escapeChar, hq, hbs, h8, h9, h10, h12, h13, h32, h127,
                            h65536]
                        rw [he]
                        have hbound := char_toNat_lt c
                        have hhi : 55296 + (c.toNat - 65536) / 1024 < 65536 := by omega
                        have hlo : 56320 + (c.toNat - 65536) % 1024 < 65536 := by
                          have := Nat.mod_lt (c.toNat - 65536) (show 0 < 1024 by omega)
                          omega
                        simp only [hex4, List.cons_append, List.nil_append,
                          List.append_assoc]
                        rw [parse_surrogate_escape f _ _ _ _ _ _ _ _
                          (55296 + (c.toNat - 65536) / 1024)
                          (56320 + (c.toNat - 65536) % 1024) _
                          (hex4val_hex4 _ hhi) (hex4val_hex4 _ hlo)
                          (by constructor <;> omega)
                          (by
                            have := Nat.mod_lt (c.toNat - 65536) (show 0 < 1024 by omega)
                            constructor <;> omega), hihf]
                        have hcomb : 65536 +
                            (55296 + (c.toNat - 65536) / 1024 - 55296) * 1024 +
                            (56320 + (c.toNat - 65536) % 1024 - 56320) = c.toNat := by
                          have := Nat.div_add_mod (c.toNat - 65536) 1024
                          omega
                        rw [hcomb]
                        rw [char_ofNat_toNat c]
                        rfl

theorem parseJString_escape (l T : List Char) :
    parseJString (escChars l ++ '"' :: T) = some (l, T) :=
  parseJStringAux_escape l T _ (le_refl _)

/-! ## Numeral parsing round-trip -/

theorem takeDigits_split :
    ∀ (ds rest : List Char), (∀ c ∈ ds, isDigitCh c = true) →
      (∀ c cs, rest = c :: cs → isDigitCh c = false) →
      takeDigits (ds ++ rest) = (ds, rest) := by
  intro ds
  induction ds with
  | nil =>
    intro rest hd hrest
    cases rest with
    | nil => rfl
    | cons c cs =>
      simp [takeDigits, hrest c cs rfl]
  | cons a ds ih =>
    intro rest hd hrest
    have ha : isDigitCh a = true := hd a (by simp)
    simp only [List.cons_append, takeDigits, ha, if_true, List.append_eq]
    rw [ih rest (fun c hc => hd c (by simp [hc])) hrest]

theorem parseNatTok_natDecimal (n : Nat) (rest : List Char)
    (hrest : ∀ c cs, rest = c :: cs → isDigitCh c = false) :
    parseNatTok (natDecimal n ++ rest) = some (n, rest) := by
  unfold parseNatTok
  rw [takeDigits_split (natDecimal n) rest (natDecimal_all_digit n) hrest]
  obtain ⟨c, cs, hd, hdig⟩ := natDecimal_head_digit n
  rw [hd]
  show some (digitsVal (c :: cs), rest) = some (n, rest)
  rw [← hd, digitsVal_natDecimal]

theorem parseIntTok_intDecimal (i : Int) (rest : List Char)
    (hrest : ∀ c cs, rest = c :: cs → isDigitCh c = false) :
    parseIntTok (intDecimal i ++ rest) = some (i, rest) := by
  by_cases hi : i < 0
  · unfold intDecimal
    rw [if_pos hi]
    show parseIntTok ('-' :: (natDecimal i.natAbs ++ rest)) = _
    simp only [parseIntTok]
    rw [if_pos trivial, parseNatTok_natDecimal _ _ hrest]
    have habs : -(i.natAbs : Int) = i := by omega
    show some (-(i.natAbs : Int), rest) = some (i, rest)
    rw [habs]
  · unfold intDecimal
    rw [if_neg hi]
    obtain ⟨c, cs, hd, hdig⟩ := natDecimal_head_digit i.natAbs
    rw [hd]
    show parseIntTok (c :: (cs ++ rest)) = _
    simp only [parseIntTok]
    rw [if_neg (digit_ne_dash hdig)]
    rw [show c :: (cs ++ rest) = (c :: cs) ++ rest from rfl, ← hd,
      parseNatTok_natDecimal _ _ hrest]
    have habs : (i.natAbs : Int) = i := by omega
    show some ((i.natAbs : Int), rest) = some (i, rest)
    rw [habs]

/-! ## Whitespace and head-shape helpers -/

theorem skipWs_cons_not_ws {c : Char} (h : isWsCh c = false) (l : List Char) :
    skipWs (c :: l) = c :: l := by
  simp [skipWs, List.dropWhile_cons, h]

theorem isWsCh_of_digit {c : Char} (h : isDigitCh c = true) : isWsCh c = false := by
  simp only [isDigitCh, Bool.and_eq_true, decide_eq_true_eq] at h
  have h1 : c ≠ ' ' := by rintro rfl; revert h; decide
  have h2 : c ≠ '\t' := by rintro rfl; revert h; decide
  have h3 : c ≠ '\n' := by rintro rfl; revert h; decide
  have h4 : c ≠ '\r' := by rintro rfl; revert h; decide
  simp [isWsCh, h1, h2, h3, h4]

theorem intDecimal_head (i : Int) :
    ∃ c cs, intDecimal i = c :: cs ∧ isWsCh c = false ∧ c ≠ '"' := by
  unfold intDecimal
  by_cases hi : i < 0
  · rw [if_pos hi]
    exact ⟨'-', natDecimal i.natAbs, rfl, by decide, by decide⟩
  · rw [if_neg hi]
    obtain ⟨c, cs, hd, hdig⟩ := natDecimal_head_digit i.natAbs
    refine ⟨c, cs, hd, isWsCh_of_digit hdig, ?_⟩
    intro hc
    subst hc
    simp [isDigitCh] at hdig

/-! ## Object-member parsing of the dumped payload -/

theorem string_mk_data (s : String) : String.mk s.data = s := rfl

theorem isWsCh_quote : isWsCh '"' = false := by decide

theorem isWsCh_colon : isWsCh ':' = false := by decide

theorem isWsCh_comma : isWsCh ',' = false := by decide

theorem isWsCh_rbrace : isWsCh '\x7d' = false := by decide

theorem parseMembers_step_int (f : Nat) (k : String) (o : Int) (T : List Char) :
    parseMembers (f + 1) (dumpJString k ++ ':' :: (intDecimal o ++ ',' :: T)) =
      (parseMembers f T).map (fun p => ((k, JVal.jint o) :: p.1, p.2)) := by
  obtain ⟨c, cs, hdc, hws, hnq⟩ := intDecimal_head o
  have hkey := parseJString_escape k.data (':' :: c :: (cs ++ ',' :: T))
  have hint : parseIntTok (c :: (cs ++ (',' :: T))) = some (o, ',' :: T) := by
    rw [show c :: (cs ++ (',' :: T)) = (c :: cs) ++ (',' :: T) from rfl, ← hdc]
    exact parseIntTok_intDecimal o (',' :: T) (by
      intro c' cs' he
      cases he
      decide)
  rw [hdc]
  simp only [parseMembers, dumpJString, List.cons_append, List.append_assoc,
    List.singleton_append, List.nil_append, skipWs, List.dropWhile_cons,
    isWsCh_quote, isWsCh_colon, isWsCh_comma, Bool.false_eq_true, if_false,
    hkey, hws, parseJValue, hnq, hint, string_mk_data, Option.map_some']

theorem parseMembers_step_str (f : Nat) (k v : String) (T : List Char) :
    parseMembers (f + 1) (dumpJString k ++ ':' :: (dumpJString v ++ ',' :: T)) =
      (parseMembers f T).map (fun p => ((k, JVal.jstr v) :: p.1, p.2)) := by
  have hkey := parseJString_escape k.data
    (':' :: '"' :: (escChars v.data ++ '"' :: (',' :: T)))
  have hval := parseJString_escape v.data (',' :: T)
  simp only [parseMembers, dumpJString, List.cons_append, List.append_assoc,
    List.singleton_append, List.nil_append, skipWs, List.dropWhile_cons,
    isWsCh_quote, isWsCh_colon, isWsCh_comma, Bool.false_eq_true, if_false,
    if_true, hkey, hval, parseJValue, string_mk_data, Option.map_some']

theorem parseMembers_last_str (f : Nat) (k v : String) (T : List Char) :
    parseMembers (f + 1) (dumpJString k ++ ':' :: (dumpJString v ++ '\x7d' :: T)) =
      some ([(k, JVal.jstr v)], T) := by
  have hkey := parseJString_escape k.data
    (':' :: '"' :: (escChars v.data ++ '"' :: ('\x7d' :: T)))
  have hval := parseJString_escape v.data ('\x7d' :: T)
  simp only [parseMembers, dumpJString, List.cons_append, List.append_assoc,
    List.singleton_append, List.nil_append, skipWs, List.dropWhile_cons,
    isWsCh_quote, isWsCh_colon, isWsCh_rbrace, Bool.false_eq_true, if_false,
    if_true, hkey, hval, parseJValue, string_mk_data, Option.map_some']

/-! ## The dumped payload is ASCII -/

theorem hexDigitL_ascii : ∀ d < 16, (hexDigitL d).toNat < 128 := by decide

theorem hex4_ascii (n : Nat) : ∀ x ∈ hex4 n, x.toNat < 128 := by
  intro x hx
  simp only [hex4, List.mem_cons, List.not_mem_nil, or_false] at hx
  rcases hx with rfl | rfl | rfl | rfl <;> exact hexDigitL_ascii _ (by omega)

theorem escapeChar_ascii (c : Char) : ∀ x ∈ escapeChar c, x.toNat < 128 := by
  intro x hx
  simp only [escapeChar] at hx
  repeat' split at hx
  all_goals
    simp only [List.mem_cons, List.mem_append, List.not_mem_nil, or_false] at hx
  · rcases hx with rfl | rfl
    · decide
    · decide
  · rcases hx with rfl | rfl
    · decide
    · decide
  · rcases hx with rfl | rfl
    · decide
    · decide
  · rcases hx with rfl | rfl
    · decide
    · decide
  · rcases hx with rfl | rfl
    · decide
    · decide
  · rcases hx with rfl | rfl
    · decide
    · decide
  · rcases hx with rfl | rfl
    · decide
    · decide
  · rcases hx with rfl | rfl | hm
    · decide
    · decide
    · exact hex4_ascii _ x hm
  · subst hx
    omega
  · rcases hx with rfl | rfl | hm
    · decide
    · decide
    · exact hex4_ascii _ x hm
  · rcases hx with (rfl | rfl | hm) | (rfl | rfl | hm)
    · decide
    · decide
    · exact hex4_ascii _ x hm
    · decide
    · decide
    · exact hex4_ascii _ x hm

theorem escChars_ascii (l : List Char) : ∀ x ∈ escChars l, x.toNat < 128 := by
  intro x hx
  simp only [escChars, List.mem_flatMap] at hx
  obtain ⟨c, _, hc⟩ := hx
  exact escapeChar_ascii c x hc

theorem digit_ascii {c : Char} (h : isDigitCh c = true) : c.toNat < 128 := by
  simp only [isDigitCh, Bool.and_eq_true, decide_eq_true_eq] at h
  omega

theorem intDecimal_ascii (i : Int) : ∀ x ∈ intDecimal i, x.toNat < 128 := by
  intro x hx
  unfold intDecimal at hx
  by_cases hi : i < 0
  · rw [if_pos hi] at hx
    rcases List.mem_cons.mp hx with rfl | hx2
    · decide
    · exact digit_ascii (natDecimal_all_digit _ _ hx2)
  · rw [if_neg hi] at hx
    exact digit_ascii (natDecimal_all_digit _ _ hx)

theorem dumpJString_ascii (s : String) : ∀ x ∈ dumpJString s, x.toNat < 128 := by
  intro x hx
  simp only [dumpJString, List.mem_cons, List.mem_append, List.not_mem_nil,
    or_false] at hx
  rcases hx with (rfl | hm) | rfl
  · decide
  · exact escChars_ascii _ x hm
  · decide

theorem jsonDumpCursor_ascii (cu : Cursor) :
    ∀ x ∈ jsonDumpCursor cu, x.toNat < 128 := by
  intro x hx
  simp only [jsonDumpCursor, List.mem_cons, List.mem_append, List.not_mem_nil,
    or_false] at hx
  rcases hx with rfl | hm | rfl | hm | rfl | hm | rfl | hm | rfl | hm | rfl | hm | rfl
  · decide
  · exact dumpJString_ascii _ x hm
  · decide
  · exact intDecimal_ascii _ x hm
  · decide
  · exact dumpJString_ascii _ x hm
  · decide
  · exact dumpJString_ascii _ x hm
  · decide
  · exact dumpJString_ascii _ x hm
  · decide
  · exact dumpJString_ascii _ x hm
  · decide

/-! ## Parsing the dumped payload -/

theorem isWsCh_lbrace : isWsCh '\x7b' = false := by decide

theorem parseMembers_cursor (g : Nat) (o : Int) (h rt : String) :
    parseMembers (g + 3)
      (dumpJString "offset" ++ ':' :: (intDecimal o ++
       ',' :: (dumpJString "file_hash" ++ ':' :: (dumpJString h ++
       ',' :: (dumpJString "report_type" ++ ':' :: (dumpJString rt ++ ['\x7d'])))))) =
      some ([("offset", JVal.jint o), ("file_hash", JVal.jstr h),
        ("report_type", JVal.jstr rt)], []) := by
  rw [show g + 3 = (g + 2) + 1 by omega]
  rw [parseMembers_step_int]
  rw [show g + 2 = (g + 1) + 1 by omega]
  rw [parseMembers_step_str]
  rw [parseMembers_last_str]
  simp only [Option.map_some']

theorem jsonParse_members (R : List Char) (ms : List (String × JVal))
    (hmem : parseMembers (R.length + 1 + 1) ('"' :: R) = some (ms, [])) :
    jsonParse ('\x7b' :: '"' :: R) = some (.jobj ms) := by
  have hq7 : ¬ (('"' : Char) = '\x7d') := by decide
  simp only [jsonParse, skipWs, List.dropWhile_cons, List.dropWhile_nil,
    isWsCh_lbrace, isWsCh_quote, Bool.false_eq_true, if_false, if_true,
    List.head?_cons, List.length_cons, Option.some.injEq, hq7,
    List.tail_cons, hmem]

theorem jsonParse_dump (cu : Cursor) :
    jsonParse (jsonDumpCursor cu) =
      some (JVal.jobj [("offset", JVal.jint cu.offset),
        ("file_hash", JVal.jstr cu.file_hash),
        ("report_type", JVal.jstr cu.report_type)]) := by
  have hM : jsonDumpCursor cu = '\x7b' :: '"' ::
      (escChars "offset".data ++ '"' :: ':' :: (intDecimal cu.offset ++
       ',' :: (dumpJString "file_hash" ++ ':' :: (dumpJString cu.file_hash ++
       ',' :: (dumpJString "report_type" ++ ':' :: (dumpJString cu.report_type ++
       ['\x7d'])))))) := by
    simp [jsonDumpCursor, dumpJString]
  rw [hM]
  apply jsonParse_members
  have hfuse : '"' :: (escChars "offset".data ++ '"' :: ':' :: (intDecimal cu.offset ++
      ',' :: (dumpJString "file_hash" ++ ':' :: (dumpJString cu.file_hash ++
      ',' :: (dumpJString "report_type" ++ ':' :: (dumpJString cu.report_type ++
      ['\x7d'])))))) =
      dumpJString "offset" ++ ':' :: (intDecimal cu.offset ++
      ',' :: (dumpJString "file_hash" ++ ':' :: (dumpJString cu.file_hash ++
      ',' :: (dumpJString "report_type" ++ ':' :: (dumpJString cu.report_type ++
      ['\x7d']))))) := by
    simp [dumpJString]
  rw [hfuse]
  have hlen : 1 ≤ (escChars "offset".data ++ '"' :: ':' :: (intDecimal cu.offset ++
      ',' :: (dumpJString "file_hash" ++ ':' :: (dumpJString cu.file_hash ++
      ',' :: (dumpJString "report_type" ++ ':' :: (dumpJString cu.report_type ++
      ['\x7d'])))))).length := by
    simp [List.length_append]
    omega
  rw [show (escChars "offset".data ++ '"' :: ':' :: (intDecimal cu.offset ++
      ',' :: (dumpJString "file_hash" ++ ':' :: (dumpJString cu.file_hash ++
      ',' :: (dumpJString "report_type" ++ ':' :: (dumpJString cu.report_type ++
      ['\x7d'])))))).length + 1 + 1 =
    ((escChars "offset".data ++ '"' :: ':' :: (intDecimal cu.offset ++
      ',' :: (dumpJString "file_hash" ++ ':' :: (dumpJString cu.file_hash ++
      ',' :: (dumpJString "report_type" ++ ':' :: (dumpJString cu.report_type ++
      ['\x7d'])))))).length - 1) + 3 by omega]
  exact parseMembers_cursor _ cu.offset cu.file_hash cu.report_type

/-! ## C3: cursor round-trip -/

/-- Full-pipeline round-trip of the cursor codec, shared by the claims
that follow returned cursors. -/
theorem decode_encode (c : Cursor) : decode_cursor (encode_cursor c) = Except.ok c := by
  have hpa : ∀ x ∈ jsonDumpCursor c, x.toNat < 128 := jsonDumpCursor_ascii c
  have hbytes : utf8Encode (String.mk (jsonDumpCursor c)) =
      (jsonDumpCursor c).map Char.toNat := utf8Encode_mk_ascii _ hpa
  have hb128 : ∀ b ∈ (jsonDumpCursor c).map Char.toNat, b < 128 := by
    intro b hb
    obtain ⟨x, hx, rfl⟩ := List.mem_map.mp hb
    exact hpa x hx
  have hb256 : ∀ b ∈ (jsonDumpCursor c).map Char.toNat, b < 256 := by
    intro b hb
    have := hb128 b hb
    omega
  have hencAscii : ∀ x ∈ b64encodeBytes ((jsonDumpCursor c).map Char.toNat), x < 128 :=
    b64encodeBytes_lt_128 _
  simp only [decode_cursor, encode_cursor, hbytes,
    utf8Encode_asciiStr _ hencAscii, b64_roundtrip _ hb256,
    utf8Decode_ascii _ hb128, map_ofNat_toNat, jsonParse_dump]
  rfl

/-- Verifies C3: decoding an encoded cursor returns the cursor exactly,
for every integer offset and all (Unicode) fingerprint and report-family
strings — the full `json.dumps`/UTF-8/URL-safe-base64 pipeline and its
inverse are modelled. -/
theorem cursor_roundtrip (c : Cursor) :
    decode_cursor (encode_cursor c) = Except.ok c :=
  decode_encode c

/-! ## C1/C2: pagination protocol -/

theorem encode_cursor_ne_empty (c : Cursor) : encode_cursor c ≠ "" := by
  unfold encode_cursor asciiStrOfBytes
  intro h
  have hdata : (b64encodeBytes (utf8Encode (String.mk (jsonDumpCursor c)))).map
      Char.ofNat = ([] : List Char) := congrArg String.data h
  have hne : utf8Encode (String.mk (jsonDumpCursor c)) ≠ [] := by
    rw [utf8Encode_mk_ascii _ (jsonDumpCursor_ascii c)]
    simp [jsonDumpCursor]
  have henc := b64encodeBytes_ne_nil _ hne
  rw [List.map_eq_nil_iff] at hdata
  exact henc hdata

theorem paginate_collect_hasMore {α : Type} (rows : List α) (k off : Nat) :
    (paginate_collect rows k off).2 = true ↔ off + k < rows.length := by
  simp only [paginate_collect, List.length_take, List.length_drop,
    decide_eq_true_eq, gt_iff_lt]
  omega

theorem paginate_collect_page_hm {α : Type} (rows : List α) (k off : Nat)
    (h : (paginate_collect rows k off).2 = true) :
    (paginate_collect rows k off).1 = (rows.drop off).take k ∧
    (paginate_collect rows k off).1.length = k := by
  have hbeyond := (paginate_collect_hasMore rows k off).mp h
  simp only [paginate_collect] at h ⊢
  simp only [decide_eq_true_eq, gt_iff_lt, List.length_take, List.length_drop] at h
  rw [if_pos (by simpa [List.length_take, List.length_drop] using h)]
  constructor
  · rw [List.take_take]
    congr 1
    omega
  · rw [List.take_take, List.length_take, List.length_drop]
    omega

theorem paginate_collect_page_not_hm {α : Type} (rows : List α) (k off : Nat)
    (h : (paginate_collect rows k off).2 = false) :
    (paginate_collect rows k off).1 = rows.drop off := by
  have hnb : ¬ off + k < rows.length := by
    intro hc
    rw [(paginate_collect_hasMore rows k off).mpr hc] at h
    cases h
  simp only [paginate_collect] at h ⊢
  simp only [decide_eq_true_eq, gt_iff_lt, List.length_take, List.length_drop] at h
  rw [if_neg (by simpa [List.length_take, List.length_drop] using h)]
  apply List.take_of_length_le
  rw [List.length_drop]
  omega

theorem paginate_collect_hasMore_beyond {α : Type} (rows : List α) (k off : Nat) :
    (paginate_collect rows k off).2 = true ↔
      off + (paginate_collect rows k off).1.length < rows.length := by
  by_cases hm : (paginate_collect rows k off).2 = true
  · obtain ⟨-, hlen⟩ := paginate_collect_page_hm rows k off hm
    rw [hlen]
    simp only [hm, true_iff]
    exact (paginate_collect_hasMore rows k off).mp hm
  · have hm2 : (paginate_collect rows k off).2 = false := by
      cases hq : (paginate_collect rows k off).2
      · rfl
      · exact absurd hq hm
    rw [paginate_collect_page_not_hm rows k off hm2, hm2]
    have hnb : ¬ off + k < rows.length := by
      intro hc
      exact hm ((paginate_collect_hasMore rows k off).mpr hc)
    rw [List.length_drop]
    constructor
    · intro hc; cases hc
    · intro hc; omega

theorem effState_none (h fam : String) :
    effectiveState none 0 h fam = .ok (((0 : Nat) : Int), ⟨((0 : Nat) : Int), h, fam⟩) :=
  rfl

theorem effState_encoded (off : Nat) (h fam : String) :
    effectiveState (some (encode_cursor ⟨(off : Int), h, fam⟩)) 0 h fam =
      .ok (((off : Nat) : Int), ⟨((off : Nat) : Int), h, fam⟩) := by
  simp only [effectiveState, maybe_decode_cursor]
  rw [if_neg (encode_cursor_ne_empty _), decode_encode]
  simp [Except.map]

theorem query_step_at_offset {α : Type} (rows : List α) (h fam : String) (k : Nat)
    (off : Nat) (tok : Option String)
    (hts : effectiveState tok 0 h fam = .ok ((off : Int), ⟨(off : Int), h, fam⟩)) :
    query_actions_step rows h fam k tok 0 =
      .ok ⟨(paginate_collect rows k off).1,
        if (paginate_collect rows k off).2 then
          some (encode_cursor
            ⟨((off + (paginate_collect rows k off).1.length : Nat) : Int), h, fam⟩)
        else none,
        (paginate_collect rows k off).2⟩ := by
  have hcast : ((off : Int) + ((paginate_collect rows k off).1.length : Int)) =
      ((off + (paginate_collect rows k off).1.length : Nat) : Int) := by
    push_cast
    ring
  simp only [query_actions_step, hts, Int.toNat_natCast, next_cursor, hcast]

theorem paginate_run_spec {α : Type} (rows : List α) (h fam : String) (k : Nat)
    (hk : 0 < k) :
    ∀ (fuel off : Nat) (tok : Option String),
      effectiveState tok 0 h fam = .ok ((off : Int), ⟨(off : Int), h, fam⟩) →
      rows.length - off < fuel →
      ∃ pages, paginate_run rows h fam k fuel tok = some pages ∧
        pages.flatten = rows.drop off ∧ ∀ p ∈ pages, p.length ≤ k := by
  intro fuel
  induction fuel with
  | zero =>
    intro off tok _ hlen
    omega
  | succ fuel ih =>
    intro off tok hts hlen
    have hstep := query_step_at_offset rows h fam k off tok hts
    by_cases hm : (paginate_collect rows k off).2 = true
    · obtain ⟨hpage, hplen⟩ := paginate_collect_page_hm rows k off hm
      have hbeyond := (paginate_collect_hasMore rows k off).mp hm
      obtain ⟨pages, hrun, hflat, hbound⟩ :=
        ih (off + k) (some (encode_cursor ⟨((off + k : Nat) : Int), h, fam⟩))
          (effState_encoded (off + k) h fam) (by omega)
      refine ⟨(paginate_collect rows k off).1 :: pages, ?_, ?_, ?_⟩
      · simp only [paginate_run, hstep, hm, if_true]
        rw [hplen, hrun]
        simp only [Option.map_some']
      · simp only [List.flatten_cons, hflat, hpage]
        rw [show rows.drop (off + k) = (rows.drop off).drop k from by
          rw [List.drop_drop]]
        exact List.take_append_drop k (rows.drop off)
      · intro p hp
        rcases List.mem_cons.mp hp with rfl | hp2
        · rw [hplen]
        · exact hbound p hp2
    · have hm2 : (paginate_collect rows k off).2 = false := by
        cases hq : (paginate_collect rows k off).2
        · rfl
        · exact absurd hq hm
      have hpage := paginate_collect_page_not_hm rows k off hm2
      refine ⟨[(paginate_collect rows k off).1], ?_, ?_, ?_⟩
      · simp only [paginate_run, hstep, hm2, if_false, Bool.false_eq_true]
      · simp [hpage]
      · intro p hp
        rcases List.mem_cons.mp hp with rfl | hp2
        · rw [hpage, List.length_drop]
          have hnb : ¬ off + k < rows.length := by
            intro hc
            exact hm ((paginate_collect_hasMore rows k off).mpr hc)
          omega
        · simp at hp2

/-- Verifies C1: with an unchanged bundle fingerprint, repeatedly
requesting pages with `limit = k` and resubmitting each returned cursor
collects every filtered row exactly once — the concatenation of the
pages is the filtered view, with no duplicates and no gaps — within
`rows.length + 1` requests, ending on a response whose cursor is null;
every page holds at most `k` rows, and `has_more` is true exactly when
rows remain beyond the returned page. -/
theorem pagination_exhaustive {α : Type} (rows : List α) (k : Nat) (hk : 0 < k)
    (h fam : String) :
    (∃ pages, paginate_run rows h fam k (rows.length + 1) none = some pages ∧
      pages.flatten = rows ∧ ∀ p ∈ pages, p.length ≤ k) ∧
    ∀ off : Nat, ((paginate_collect rows k off).2 = true ↔
      off + (paginate_collect rows k off).1.length < rows.length) := by
  constructor
  · obtain ⟨pages, h1, h2, h3⟩ := paginate_run_spec rows h fam k hk
      (rows.length + 1) 0 none (effState_none h fam) (by omega)
    exact ⟨pages, h1, by simpa using h2, h3⟩
  · intro off
    exact paginate_collect_hasMore_beyond rows k off

/-- Witness for C1 on a concrete five-row view paged two at a time. -/
theorem pagination_exhaustive_witness :
    (∃ pages, paginate_run [10, 20, 30, 40, 50] "h" "actions" 2 6 none = some pages ∧
      pages.flatten = [10, 20, 30, 40, 50] ∧ ∀ p ∈ pages, p.length ≤ 2) ∧
    ∀ off : Nat, ((paginate_collect [10, 20, 30, 40, 50] 2 off).2 = true ↔
      off + (paginate_collect [10, 20, 30, 40, 50] 2 off).1.length < 5) :=
  pagination_exhaustive [10, 20, 30, 40, 50] 2 (by omega) "h" "actions"

/-- Verifies C2: a decodable cursor whose fingerprint differs from the
current bundle is not an error — the request behaves exactly like a
fresh first-page request at offset 0, regardless of the offset query
parameter, and returns the first page of the new bundle. -/
theorem stale_cursor_restarts_at_zero {α : Type} (rows : List α) (k : Nat)
    (h fam : String) (old : Cursor) (hne : old.file_hash ≠ h) (p : Nat) :
    query_actions_step rows h fam k (some (encode_cursor old)) p =
      query_actions_step rows h fam k none 0 ∧
    ∃ pg : QueryPage α,
      query_actions_step rows h fam k (some (encode_cursor old)) p = .ok pg ∧
      pg.data = (paginate_collect rows k 0).1 ∧
      pg.has_more = (paginate_collect rows k 0).2 := by
  have hes : effectiveState (some (encode_cursor old)) p h fam =
      .ok (((0 : Nat) : Int), ⟨((0 : Nat) : Int), h, fam⟩) := by
    simp only [effectiveState, maybe_decode_cursor]
    rw [if_neg (encode_cursor_ne_empty _), decode_encode]
    simp [hne, Except.map]
    rfl
  have heq : query_actions_step rows h fam k (some (encode_cursor old)) p =
      query_actions_step rows h fam k none 0 := by
    unfold query_actions_step
    rw [hes, effState_none]
  refine ⟨heq, ?_⟩
  rw [heq, query_step_at_offset rows h fam k 0 none (effState_none h fam)]
  exact ⟨_, rfl, rfl, rfl⟩

/-- Witness for C2 at a concrete stale cursor. -/
theorem stale_cursor_restarts_at_zero_witness :
    (query_actions_step [10, 20, 30] "h2" "actions" 2
        (some (encode_cursor ⟨2, "h1", "actions"⟩)) 5 =
      query_actions_step [10, 20, 30] "h2" "actions" 2 none 0) ∧
    ∃ pg : QueryPage Nat,
      query_actions_step [10, 20, 30] "h2" "actions" 2
        (some (encode_cursor ⟨2, "h1", "actions"⟩)) 5 = .ok pg ∧
      pg.data = (paginate_collect [10, 20, 30] 2 0).1 ∧
      pg.has_more = (paginate_collect [10, 20, 30] 2 0).2 :=
  stale_cursor_restarts_at_zero [10, 20, 30] 2 "h2" "actions"
    ⟨2, "h1", "actions"⟩ (by decide) 5

end RiskQuery
